import Mathlib

/-!
Verification development for the hique SQL query builder and execution engine.

The definitions below are a shallow embedding of the Python sources:
  * `hique/expr.py`    - the expression AST and its smart constructors,
  * `hique/pgbuilder.py` - the PostgreSQL SQL compiler (precedence table,
    operator renderer, positional-argument collection),
  * `hique/query.py`   - select/insert/delete query values, join inference
    and the row hydrator `unwrap_models`,
  * `hique/base.py`    - entity aliasing (`alias`),
  * `hique/engine.py`  - the nested-transaction engine.

Python objects are modelled as explicit data; object identity is modelled by
numeric ids or heap indices; exceptions are modelled by an explicit error
type; mutation is modelled by state threading.
-/

set_option autoImplicit false

namespace Hique

/-- Scalar (non-`Expr`) Python values that can reach the compiler or the
hydrator: strings, integers, booleans and `None`. -/
inductive Scalar where
  | str (s : String)
  | int (n : Int)
  | bool (b : Bool)
  | none
  deriving DecidableEq, Repr

/-- Python exceptions raised by the modelled code, by class and message.
`attributeError` models access to an instance attribute that was never
assigned (bare class-level annotations in Python do not create attributes). -/
inductive PyError where
  | runtimeError (msg : String)
  | attributeError (name : String)
  | indexError (msg : String)
  | valueError (msg : String)
  | assertionError
  | notImplementedError (msg : String)
  | recursionError
  deriving DecidableEq, Repr

/-! ### Expression model (`hique/expr.py`, `hique/base.py`)

`Expr` has `op : str`, `args : Sequence[Any]` (a mix of `Expr` and scalar
values) and a mutable `__alias__ : Optional[str]`.  `Literal` is the subclass
with `op = "literal"` carrying a raw SQL string; `FieldExpr` is the subclass
with `op = "field"` carrying the owning table's alias, the descriptor's
column name and the descriptor's optional computed expression.  The mutual
`ValList` replaces `List` to keep recursion structural. -/

mutual

inductive Exp where
  | lit (value : String) (al : Option String)
  | fieldE (tableAlias : String) (colName : String) (computed : OptExp)
      (al : Option String)
  | node (op : String) (args : ValList) (al : Option String)

inductive Val where
  | e (x : Exp)
  | s (v : Scalar)

inductive ValList where
  | nil
  | cons (a : Val) (rest : ValList)

inductive OptExp where
  | noneE
  | someE (x : Exp)

end

namespace ValList

def toList : ValList → List Val
  | .nil => []
  | .cons a rest => a :: rest.toList

def ofList : List Val → ValList
  | [] => .nil
  | a :: rest => .cons a (ofList rest)

end ValList

/-- The `op` attribute of an expression (`"literal"` and `"field"` are set by
the `Literal` and `FieldExpr` constructors). -/
def Exp.op : Exp → String
  | .lit _ _ => "literal"
  | .fieldE _ _ _ _ => "field"
  | .node op _ _ => op

/-- The `__alias__` attribute of an expression. -/
def Exp.aliasAttr : Exp → Option String
  | .lit _ al => al
  | .fieldE _ _ _ al => al
  | .node _ _ al => al

/-! ### Precedence table (`PostgresqlQueryBuilder.precedence`) -/

/-- The tier list from `pgbuilder.py`: index 0 holds the atoms and binds the
tightest; larger indices bind more and more loosely, ending with `OR`.
`Option.none` is the tier assigned to operators absent from the table. -/
def precedenceTable : List (List (Option String)) :=
  [[some "field", some "literal", some "arg", some "call"],
   [some "pos", some "neg"],
   [some "mul", some "div", some "mod"],
   [some "add", some "sub"],
   [some "is_null"],
   [some "is_not_null"],
   [Option.none],
   [some "lt", some "gt", some "eq", some "le", some "ge", some "ne"],
   [some "invert"],
   [some "and"],
   [some "or"]]

/-- `precedence_map` built in `PostgresqlQueryBuilder.__init__`: the index of
the tier containing the given operator name, if any. -/
def precedenceMap (o : Option String) : Option Nat :=
  precedenceTable.findIdx? (fun tier => tier.contains o)

/-- `get_precedence` on an `Expr`: table lookup of its `op`, defaulting to the
tier of `None` for operators outside the table. -/
def tierOfOp (op : String) : Nat :=
  match precedenceMap (some op) with
  | some p => p
  | Option.none => (precedenceMap Option.none).getD 0

/-- `get_precedence`: non-`Expr` values take the `"arg"` tier (the atoms). -/
def getPrecedence : Val → Nat
  | .s _ => (precedenceMap (some "arg")).getD 0
  | .e x => tierOfOp x.op

/-! ### The emitter (`PostgresqlQueryBuilder.emit` and friends) -/

/-- `Args.__call__`: append the value and return the new (1-based) length,
which becomes the positional-placeholder number. -/
def argsCall (st : List Scalar) (v : Scalar) : Nat × List Scalar :=
  (st.length + 1, st ++ [v])

/-- `emit_arg`: replace a scalar by `$n` and record it. -/
def emitArg (st : List Scalar) (v : Scalar) : String × List Scalar :=
  let r := argsCall st v
  ("$" ++ toString r.1, r.2)

/-- `quote` with `delim="."` on two parts, as used by `emit_field`. -/
def quoteDot (a b : String) : String :=
  "\x22" ++ a ++ "\x22.\x22" ++ b ++ "\x22"

/-- `quote` on a single name. -/
def quote1 (a : String) : String :=
  "\x22" ++ a ++ "\x22"

/-- The rendering strategy `expr_emitter_map` assigns to an operator name:
an infix/prefix/suffix operator rendering (`emit_op` partial applications),
a function-call rendering (`emit_call` lambdas), the `Literal`/`FieldExpr`
renderers, or `not_implemented`. -/
inductive EmitKind where
  | opK (pre : String) (inf : String) (suf : String)
  | fnK (name : String)
  | litK
  | fieldK
  | callK
  | notImpl
  deriving DecidableEq, Repr

/-- The `expr_emitter_map` dictionary from `pgbuilder.py`. -/
def emitterFor (op : String) : Option EmitKind :=
  match op with
  | "literal" => some .litK
  | "field" => some .fieldK
  | "lt" => some (.opK "" " < " "")
  | "le" => some (.opK "" " <= " "")
  | "eq" => some (.opK "" " = " "")
  | "ne" => some (.opK "" " <> " "")
  | "gt" => some (.opK "" " > " "")
  | "ge" => some (.opK "" " >= " "")
  | "neg" => some (.opK "-" "" "")
  | "pos" => some (.opK "+" "" "")
  | "abs" => some (.fnK "abs")
  | "invert" => some (.opK "NOT " "" "")
  | "add" => some (.opK "" " + " "")
  | "sub" => some (.opK "" " - " "")
  | "mul" => some (.opK "" " * " "")
  | "matmul" => some .notImpl
  | "div" => some (.opK "" " / " "")
  | "floordiv" => some (.fnK "div")
  | "mod" => some (.opK "" " % " "")
  | "divmod" => some .notImpl
  | "pow" => some (.fnK "power")
  | "lshift" => some (.opK "" " << " "")
  | "rshift" => some (.opK "" " >> " "")
  | "and" => some (.opK "" " AND " "")
  | "xor" => some (.opK "" " # " "")
  | "or" => some (.opK "" " OR " "")
  | "round" => some (.fnK "round")
  | "floor" => some (.fnK "floor")
  | "ceil" => some (.fnK "ceil")
  | "is_null" => some (.opK "" "" " IS NULL")
  | "is_not_null" => some (.opK "" "" " IS NOT NULL")
  | "call" => some .callK
  | _ => Option.none

/-- `", ".join` style joining. -/
def joinSep (sep : String) : List String → String
  | [] => ""
  | [s] => s
  | s :: s2 :: rest => s ++ sep ++ joinSep sep (s2 :: rest)

/-- The parenthesization decision inside `emit_op`: a rendered child is
wrapped iff the parent tier index is strictly below the child tier index
(i.e. the child's operator binds strictly more loosely). -/
def parenthesize (parentPrec : Nat) (a : Val) (s : String) : String :=
  if parentPrec < getPrecedence a then "(" ++ s ++ ")" else s

mutual

/-- `emit`: dispatch on `Expr` versus scalar argument. -/
def emitV : Val → List Scalar → Except PyError (String × List Scalar)
  | .s v, st => .ok (emitArg st v)
  | .e x, st => emitE x st

/-- `emit_expr` composed with the entries of `expr_emitter_map`.
A `node` whose op is `"literal"`, `"field"` or `"call"` corresponds to a bare
`Expr` that is not an instance of the matching subclass, on which the
renderer's `assert isinstance(...)` fails; in the library those ops are only
ever produced by the subclass constructors, modelled by `lit` / `fieldE`. -/
def emitE : Exp → List Scalar → Except PyError (String × List Scalar)
  | .lit v _, st => .ok (v, st)
  | .fieldE tbl col computed _, st =>
    match computed with
    | .someE ex => emitE ex st
    | .noneE => .ok (quoteDot tbl col, st)
  | .node op args _, st =>
    match emitterFor op with
    | Option.none => .error (.notImplementedError op)
    | some .notImpl => .error (.notImplementedError op)
    | some .litK => .error .assertionError
    | some .fieldK => .error .assertionError
    | some .callK => .error .assertionError
    | some (.fnK name) =>
      match emitCallArgs args st with
      | .error e => .error e
      | .ok (ss, st1) => .ok (name ++ "(" ++ joinSep ", " ss ++ ")", st1)
    | some (.opK pre inf suf) =>
      match emitOpArgs (tierOfOp op) args st with
      | .error e => .error e
      | .ok (ss, st1) => .ok (pre ++ joinSep inf ss ++ suf, st1)

/-- The argument loop of `emit_call`: children rendered in order, never
parenthesized by the renderer itself. -/
def emitCallArgs : ValList → List Scalar →
    Except PyError (List String × List Scalar)
  | .nil, st => .ok ([], st)
  | .cons a rest, st =>
    match emitV a st with
    | .error e => .error e
    | .ok (s, st1) =>
      match emitCallArgs rest st1 with
      | .error e => .error e
      | .ok (ss, st2) => .ok (s :: ss, st2)

/-- The argument loop of `emit_op`: children rendered in order, each wrapped
by `parenthesize` against the parent's tier. -/
def emitOpArgs (parentPrec : Nat) : ValList → List Scalar →
    Except PyError (List String × List Scalar)
  | .nil, st => .ok ([], st)
  | .cons a rest, st =>
    match emitV a st with
    | .error e => .error e
    | .ok (s, st1) =>
      match emitOpArgs parentPrec rest st1 with
      | .error e => .error e
      | .ok (ss, st2) => .ok (parenthesize parentPrec a s :: ss, st2)

end

/-! ### Depth-first scalar collection (specification side, from the spec's
"strict left-to-right, depth-first traversal order") -/

mutual

def dfsV : Val → List Scalar
  | .s v => [v]
  | .e x => dfsE x

def dfsE : Exp → List Scalar
  | .lit _ _ => []
  | .fieldE _ _ computed _ =>
    match computed with
    | .someE ex => dfsE ex
    | .noneE => []
  | .node _ args _ => dfsL args

def dfsL : ValList → List Scalar
  | .nil => []
  | .cons a rest => dfsV a ++ dfsL rest

end

/-! ### Smart constructors (`Expr.__lt__` etc., `Expr.__pow__`) -/

/-- A binary dunder operator `Expr(op, self, other)`. -/
def mkBin (op : String) (a b : Val) : Exp :=
  .node op (.cons a (.cons b .nil)) Option.none

/-- A unary dunder operator `Expr(op, self)`. -/
def mkUn (op : String) (a : Val) : Exp :=
  .node op (.cons a .nil) Option.none

/-- `Expr.__pow__(self, other, modulo=None)`: always three arguments, the
third being the (default `None`) modulo. -/
def mkPow (a b : Val) : Exp :=
  .node "pow" (.cons a (.cons b (.cons (.s .none) .nil))) Option.none

/-- The `.args` attribute of an expression, as the Python object holds it:
`Literal("v")` has args `("v",)` and `FieldExpr` has args `()`. -/
def Exp.argsOf : Exp → List Val
  | .lit v _ => [.s (.str v)]
  | .fieldE _ _ _ _ => []
  | .node _ args _ => args.toList

/-! ### Query model (`hique/query.py`, `hique/base.py`)

An entity is a `Model` subclass; `eid` models the class object's identity
(two classes produced by two calls of `alias()` are distinct objects even
when their table name and alias string coincide). -/

structure Entity where
  eid : Nat
  tableName : String
  aliasName : String
  deriving DecidableEq, Repr

/-- `hique.base.alias`: builds a fresh subclass (a fresh class object, hence a
fresh identity) sharing the table name and carrying the new alias. -/
def aliasEntity (cls : Entity) (freshId : Nat) (name : String) : Entity :=
  ⟨freshId, cls.tableName, name⟩

inductive JoinTy where
  | inner | left | right | full | cross
  deriving DecidableEq, Repr

/-- The `JOIN` keyword chosen by `add_joins` for each `JoinType`. -/
def joinKeyword : JoinTy → String
  | .inner => "JOIN"
  | .left => "LEFT JOIN"
  | .right => "RIGHT JOIN"
  | .full => "FULL JOIN"
  | .cross => "CROSS JOIN"

structure JoinM where
  attrName : Option String
  dest : Entity
  joinTy : JoinTy
  condition : Option Val

/-- `query._join` is a dict keyed by the source model class; lookup defaults
to the empty list (`join_map.get(model, [])`). -/
def joinLookup (joins : List (Nat × List JoinM)) (eid : Nat) : List JoinM :=
  match joins.find? (fun p => p.1 = eid) with
  | some p => p.2
  | Option.none => []

/-- `emit(join.condition, args)`: a `None` condition is emitted as a plain
scalar argument. -/
def condVal (j : JoinM) : Val :=
  match j.condition with
  | some c => c
  | Option.none => .s .none

/-- One pass of the `for join in join_map.get(model, [])` loop of
`add_joins`: the keyword, the quoted destination table, the optional `AS`,
the optional `ON` condition and then (through `recurse`) the destination's
own joins, in that order. -/
def goJoins
    (recurse : Entity → List Scalar → Except PyError (List String × List Scalar)) :
    List JoinM → List Scalar → Except PyError (List String × List Scalar)
  | [], st => .ok ([], st)
  | j :: rest, st =>
    let lead := [joinKeyword j.joinTy, quote1 j.dest.tableName] ++
      (if j.dest.aliasName ≠ j.dest.tableName then
        ["AS " ++ quote1 j.dest.aliasName] else [])
    match (if j.joinTy ≠ .cross then
        (match emitV (condVal j) st with
         | .error e => .error e
         | .ok (s, st1) => .ok (["ON", s], st1))
      else .ok ([], st) : Except PyError (List String × List Scalar)) with
    | .error e => .error e
    | .ok (onTks, st1) =>
      match recurse j.dest st1 with
      | .error e => .error e
      | .ok (subTks, st2) =>
        match goJoins recurse rest st2 with
        | .error e => .error e
        | .ok (tks, st3) => .ok (lead ++ onTks ++ subTks ++ tks, st3)

/-- `add_joins`: renders the outgoing joins of `model`, depth first through
the join graph.  Python recurses without bound; the fuel argument only cuts
infinite descent on cyclic graphs (where Python would not terminate), and
any fuel larger than the nesting depth reproduces the Python behaviour. -/
def addJoins (joins : List (Nat × List JoinM)) : Nat → Entity → List Scalar →
    Except PyError (List String × List Scalar)
  | 0, _, _ => .error .recursionError
  | fuel + 1, model, st => goJoins (addJoins joins fuel) (joinLookup joins model.eid) st

/-- Specification-side collector: the scalars bound while rendering one
level of the join list, in rendering order. -/
def goJoinScalars (recurse : Entity → List Scalar) : List JoinM → List Scalar
  | [] => []
  | j :: rest =>
    (if j.joinTy ≠ .cross then dfsV (condVal j) else []) ++
      recurse j.dest ++ goJoinScalars recurse rest

/-- Specification-side collector: the scalars bound while rendering the join
graph below `model`, in rendering order. -/
def joinScalars (joins : List (Nat × List JoinM)) : Nat → Entity → List Scalar
  | 0, _ => []
  | fuel + 1, model => goJoinScalars (joinScalars joins fuel) (joinLookup joins model.eid)

structure SelectQ where
  values : List Exp
  froms : List Entity
  joins : List (Nat × List JoinM)
  filters : List Exp

structure InsertQ where
  model : Entity
  values : List (String × Val)
  returning : List Exp

structure DeleteQ where
  model : Entity
  filters : List Exp

/-- Python `a or b` on an optional string: an empty string is falsy. -/
def pyOr (a : Option String) (b : String) : String :=
  match a with
  | some s => if s = "" then b else s
  | Option.none => b

/-- The output alias chosen for a projection, per the `select`/`returning`
loops: a `FieldExpr` always gets `table_alias.name` (never `None`), any other
expression keeps its truthy `__alias__` or stays bare. -/
def valueAlias (x : Exp) : Option String :=
  match x with
  | .fieldE tbl col _ al => some (tbl ++ "." ++ pyOr al col)
  | _ =>
    match x.aliasAttr with
    | some s => if s = "" then Option.none else some s
    | Option.none => Option.none

/-- Render one projection, with its `AS` suffix when an alias is present. -/
def renderValue (x : Exp) (st : List Scalar) :
    Except PyError (String × List Scalar) :=
  match emitE x st with
  | .error e => .error e
  | .ok (s, st1) =>
    match valueAlias x with
    | Option.none => .ok (s, st1)
    | some al => .ok (s ++ " AS " ++ quote1 al, st1)

/-- The projection loop of `select` (also used verbatim for `RETURNING`). -/
def renderValues : List Exp → List Scalar →
    Except PyError (List String × List Scalar)
  | [], st => .ok ([], st)
  | x :: rest, st =>
    match renderValue x st with
    | .error e => .error e
    | .ok (s, st1) =>
      match renderValues rest st1 with
      | .error e => .error e
      | .ok (ss, st2) => .ok (s :: ss, st2)

/-- `emit` mapped over a list of expressions (the `WHERE` filters and the
`VALUES` of an insert). -/
def emitSeq : List Val → List Scalar →
    Except PyError (List String × List Scalar)
  | [], st => .ok ([], st)
  | v :: rest, st =>
    match emitV v st with
    | .error e => .error e
    | .ok (s, st1) =>
      match emitSeq rest st1 with
      | .error e => .error e
      | .ok (ss, st2) => .ok (s :: ss, st2)

/-- One `FROM` entry: the quoted table, the `AS` clause when the quoted alias
differs from the quoted table, then the join tokens, joined by blanks. -/
def fromEntry (joins : List (Nat × List JoinM)) (fuel : Nat) (e : Entity)
    (st : List Scalar) : Except PyError (String × List Scalar) :=
  let base := [quote1 e.tableName] ++
    (if quote1 e.tableName ≠ quote1 e.aliasName then
      ["AS " ++ quote1 e.aliasName] else [])
  match addJoins joins fuel e st with
  | .error er => .error er
  | .ok (tks, st1) => .ok (joinSep " " (base ++ tks), st1)

/-- The `FROM` loop of `select`: `from_set` membership is Python set
membership on class objects, i.e. entity identity. -/
def fromLoop (joins : List (Nat × List JoinM)) (fuel : Nat)
    (seen : List Entity) : List Entity → List Scalar →
    Except PyError (List String × List Scalar)
  | [], st => .ok ([], st)
  | e :: rest, st =>
    if e ∈ seen then fromLoop joins fuel seen rest st
    else
      match fromEntry joins fuel e st with
      | .error er => .error er
      | .ok (s, st1) =>
        match fromLoop joins fuel (e :: seen) rest st1 with
        | .error er => .error er
        | .ok (ss, st2) => .ok (s :: ss, st2)

/-- `fromLoop` without the seen-set: renders every entity of the list. -/
def fromEntries (joins : List (Nat × List JoinM)) (fuel : Nat) :
    List Entity → List Scalar → Except PyError (List String × List Scalar)
  | [], st => .ok ([], st)
  | e :: rest, st =>
    match fromEntry joins fuel e st with
    | .error er => .error er
    | .ok (s, st1) =>
      match fromEntries joins fuel rest st1 with
      | .error er => .error er
      | .ok (ss, st2) => .ok (s :: ss, st2)

/-- `PostgresqlQueryBuilder.select`. -/
def selectCompile (q : SelectQ) (fuel : Nat) :
    Except PyError (String × List Scalar) :=
  match renderValues q.values [] with
  | .error e => .error e
  | .ok (vals, st1) =>
    match (if q.froms.isEmpty then .ok ("", st1) else
        match fromLoop q.joins fuel [] q.froms st1 with
        | .error e => .error e
        | .ok (entries, st2) =>
          .ok (" FROM " ++ joinSep ", " entries, st2) :
        Except PyError (String × List Scalar)) with
    | .error e => .error e
    | .ok (fromStr, st2) =>
      match (if q.filters.isEmpty then .ok ("", st2) else
          match emitSeq (q.filters.map .e) st2 with
          | .error e => .error e
          | .ok (fs, st3) =>
            .ok (" WHERE " ++ joinSep " AND " fs, st3) :
          Except PyError (String × List Scalar)) with
      | .error e => .error e
      | .ok (whereStr, st3) =>
        .ok ("SELECT " ++ joinSep ", " vals ++ fromStr ++ whereStr, st3)

/-- The `INSERT INTO`/`DELETE FROM` target: quoted table plus `AS` when the
alias differs from the (unquoted) table name. -/
def targetName (e : Entity) : String :=
  quote1 e.tableName ++
    (if e.aliasName ≠ e.tableName then " AS " ++ quote1 e.aliasName else "")

/-- `PostgresqlQueryBuilder.insert`.  `zip(*query._values.items())` on an
empty dict raises a `ValueError` before anything is rendered. -/
def insertCompile (q : InsertQ) : Except PyError (String × List Scalar) :=
  if q.values.isEmpty then .error (.valueError "not enough values to unpack")
  else
    match emitSeq (q.values.map Prod.snd) [] with
    | .error e => .error e
    | .ok (vals, st1) =>
      match (if q.returning.isEmpty then .ok ("", st1) else
          match renderValues q.returning st1 with
          | .error e => .error e
          | .ok (rets, st2) =>
            .ok (" RETURNING " ++ joinSep ", " rets, st2) :
          Except PyError (String × List Scalar)) with
      | .error e => .error e
      | .ok (retStr, st2) =>
        .ok ("INSERT INTO " ++ targetName q.model ++ " (" ++
          joinSep ", " (q.values.map (fun p => quote1 p.1)) ++ ") VALUES (" ++
          joinSep ", " vals ++ ")" ++ retStr, st2)

/-- `PostgresqlQueryBuilder.delete`. -/
def deleteCompile (q : DeleteQ) : Except PyError (String × List Scalar) :=
  match (if q.filters.isEmpty then .ok ("", []) else
      match emitSeq (q.filters.map .e) [] with
      | .error e => .error e
      | .ok (fs, st1) => .ok (" WHERE " ++ joinSep " AND " fs, st1) :
      Except PyError (String × List Scalar)) with
  | .error e => .error e
  | .ok (whereStr, st1) =>
    .ok ("DELETE FROM " ++ targetName q.model ++ whereStr, st1)

inductive QueryM where
  | sel (q : SelectQ)
  | ins (q : InsertQ)
  | delQ (q : DeleteQ)

/-- `PostgresqlQueryBuilder.__call__`: dispatch on the query kind, starting
from a fresh `Args`. -/
def build (q : QueryM) (fuel : Nat) : Except PyError (String × List Scalar) :=
  match q with
  | .sel q => selectCompile q fuel
  | .ins q => insertCompile q
  | .delQ q => deleteCompile q

/-! ### First-seen-order de-duplication (the `from_set` loop, and the
identity maps of the hydrator) -/

def dedupFirstAux {α : Type} [DecidableEq α] (seen : List α) : List α → List α
  | [] => []
  | a :: rest =>
    if a ∈ seen then dedupFirstAux seen rest
    else a :: dedupFirstAux (a :: seen) rest

/-- Keep the first occurrence of each element, in first-seen order. -/
def dedupFirst {α : Type} [DecidableEq α] (l : List α) : List α :=
  dedupFirstAux [] l

/-! ### Specification-side scalar collection for whole queries -/

/-- The scalars a query binds, in the compiler's left-to-right depth-first
traversal order: projections, then the join conditions of the de-duplicated
`FROM` entities (graph order), then the filters; for inserts, the inserted
values then the `RETURNING` projections. -/
def queryScalars : QueryM → Nat → List Scalar
  | .sel q, fuel =>
    (q.values.map dfsE).flatten ++
      (if q.froms.isEmpty then [] else
        ((dedupFirst q.froms).map (fun e => joinScalars q.joins fuel e)).flatten) ++
      (if q.filters.isEmpty then [] else (q.filters.map dfsE).flatten)
  | .ins q, _ =>
    if q.values.isEmpty then [] else
      (q.values.map (fun p => dfsV p.2)).flatten ++
        (if q.returning.isEmpty then [] else (q.returning.map dfsE).flatten)
  | .delQ q, _ =>
    if q.filters.isEmpty then [] else (q.filters.map dfsE).flatten

/-! ### Transaction engine (`hique/engine.py`)

A `TransactionContext` is modelled by an index into a handle heap.  The
class annotates `_connection : Optional[Connection]` without assigning it:
the attribute exists only after the branch of `__await__` that acquires a
fresh connection runs, so `conn = Option.none` models the *unset* attribute
and reading it raises an `AttributeError`.  `_transaction` is assigned
`None` in `__init__`.  Connections and driver transactions are numbered;
driver calls are recorded as events. -/

structure TxHandle where
  conn : Option Nat := Option.none
  tx : Option Nat := Option.none
  completed : Bool := false
  deriving DecidableEq, Repr

inductive DbEvent where
  | acquire (c : Nat)
  | release (c : Nat)
  | beginTx (t : Nat)
  | commitTx (t : Nat)
  | rollbackTx (t : Nat)
  deriving DecidableEq, Repr

/-- The per-execution-context `TransactionState` plus the handle heap, the
fresh-id counters of the modelled pool/driver and the driver-event trace.
The stack holds handle indices, topmost last (a Python `deque` appended and
popped on the right). -/
structure EngState where
  handles : List TxHandle
  stack : List Nat
  borrows : Nat
  inherited : Bool
  connection : Option Nat
  freshConn : Nat
  freshTx : Nat
  events : List DbEvent
  deriving DecidableEq, Repr

/-- The state `TaskLocalState` creates lazily for a fresh task. -/
def initialEngState : EngState :=
  ⟨[], [], 0, false, Option.none, 0, 0, []⟩

/-- `Engine.transaction`: refuse on an inherited state or while borrowed,
otherwise construct a fresh `TransactionContext` (returned as its index). -/
def engineTransaction (st : EngState) : EngState × Except PyError Nat :=
  if st.inherited then
    (st, .error (.runtimeError "Cannot start new transaction with inherited context."))
  else if st.borrows ≠ 0 then
    (st, .error (.runtimeError "Cannot start a new transaction while it is borrowed."))
  else
    ({st with handles := st.handles ++ [{}]}, .ok st.handles.length)

/-- `TransactionContext.__await__`: acquire a pooled connection only when the
state holds none (recording it on the handle *only* in that branch), begin a
driver transaction, push the handle. -/
def awaitCtx (st : EngState) (i : Nat) : EngState × Option PyError :=
  match st.handles.get? i with
  | Option.none => (st, some (.runtimeError "invalid context"))
  | some hd =>
    let st1 :=
      match st.connection with
      | Option.none =>
        { st with
          events := st.events ++ [DbEvent.acquire st.freshConn],
          connection := some st.freshConn,
          handles := st.handles.set i { hd with conn := some st.freshConn },
          freshConn := st.freshConn + 1 }
      | some _ => st
    let hd1 := st1.handles.getD i hd
    ({ st1 with
       events := st1.events ++ [DbEvent.beginTx st1.freshTx],
       handles := st1.handles.set i { hd1 with tx := some st1.freshTx },
       freshTx := st1.freshTx + 1,
       stack := st1.stack ++ [i] }, Option.none)

/-- `TransactionContext._check_state`: borrow check, then topmost check
(`stack[-1]` raises `IndexError` on an empty deque), then the recorded
connection; reading the never-assigned `_connection` of an inner handle
raises `AttributeError`. -/
def checkState (st : EngState) (i : Nat) : Option PyError :=
  match st.handles.get? i with
  | Option.none => some (.runtimeError "invalid context")
  | some hd =>
    if st.borrows ≠ 0 then
      some (.runtimeError "Cannot release a transaction that is currently borrowed.")
    else
      match st.stack.getLast? with
      | Option.none => some (.indexError "deque index out of range")
      | some top =>
        if top ≠ i then
          some (.runtimeError "Releasing transaction in incorrect order.")
        else
          match hd.conn with
          | Option.none => some (.attributeError "_connection")
          | some c =>
            if st.connection ≠ some c then
              some (.runtimeError "Task switched when releasing transaction.")
            else Option.none

/-- `TransactionContext._pop_transaction`: mark completed, pop the stack and,
exactly when it became empty, release the handle's connection and clear the
state's connection reference. -/
def popTransaction (st : EngState) (i : Nat) : EngState × Option PyError :=
  match st.handles.get? i with
  | Option.none => (st, some (.runtimeError "invalid context"))
  | some hd =>
    match hd.conn with
    | Option.none => (st, some (.attributeError "_connection"))
    | some c =>
      let st1 := { st with
        handles := st.handles.set i { hd with completed := true },
        stack := st.stack.dropLast }
      if st1.stack.isEmpty then
        let st2 := { st1 with
          events := st1.events ++ [DbEvent.release c],
          connection := Option.none }
        (st2, Option.none)
      else (st1, Option.none)

/-- `TransactionContext.commit`: the invalid-state guard on `_transaction`,
then `_check_state`, then the driver commit, then `_pop_transaction`. -/
def commitCtx (st : EngState) (i : Nat) : EngState × Option PyError :=
  match st.handles.get? i with
  | Option.none => (st, some (.runtimeError "invalid context"))
  | some hd =>
    match hd.tx with
    | Option.none => (st, some (.runtimeError "Transaction has invalid state."))
    | some t =>
      match checkState st i with
      | some e => (st, some e)
      | Option.none =>
        popTransaction { st with events := st.events ++ [DbEvent.commitTx t] } i

/-- `TransactionContext.rollback`: same shape as `commit`. -/
def rollbackCtx (st : EngState) (i : Nat) : EngState × Option PyError :=
  match st.handles.get? i with
  | Option.none => (st, some (.runtimeError "invalid context"))
  | some hd =>
    match hd.tx with
    | Option.none => (st, some (.runtimeError "Transaction has invalid state."))
    | some t =>
      match checkState st i with
      | some e => (st, some e)
      | Option.none =>
        popTransaction { st with events := st.events ++ [DbEvent.rollbackTx t] } i

def DbEvent.isRelease : DbEvent → Bool
  | .release _ => true
  | _ => false

def DbEvent.isAcquire : DbEvent → Bool
  | .acquire _ => true
  | _ => false

/-! ### Join-condition inference (`BaseSelectQuery.join`)

`issubclass(cls, other)` is modelled by membership of `other`'s id in
`cls`'s ancestor ids.  A field's `references` is the `FieldExpr` it points
at: the id of its owning class and the descriptor's attribute name. -/

structure FieldRefM where
  tableId : Nat
  attrName : String
  deriving DecidableEq, Repr

structure FieldJ where
  attrName : String
  references : Option FieldRefM
  deriving DecidableEq, Repr

structure EntityJ where
  eid : Nat
  ancestors : List Nat
  aliasName : String
  fields : List FieldJ
  backrefs : List (String × Nat)
  deriving DecidableEq, Repr

/-- The record `join()` constructs. -/
structure JoinBuilt where
  attrName : Option String
  destId : Nat
  joinTy : JoinTy
  condition : Option Exp

/-- The `for attr_name, field in dest.__fields__.items()` search: the first
field carrying a reference whose table the source is a subclass of. -/
def findRefField (anc : List Nat) : List FieldJ → Option (String × FieldRefM)
  | [] => Option.none
  | f :: rest =>
    match f.references with
    | some r =>
      if r.tableId ∈ anc then some (f.attrName, r) else findRefField anc rest
    | Option.none => findRefField anc rest

/-- The `for attr_name, backref in src.__backrefs__.items()` search used to
default `as_`. -/
def findBackref (destAnc : List Nat) : List (String × Nat) → Option String
  | [] => Option.none
  | (name, mid) :: rest =>
    if mid ∈ destAnc then some name else findBackref destAnc rest

/-- The inferred `ON` condition
`getattr(src, references.descriptor.attr_name) == getattr(dest, attr_name)`
(descriptor names default to the attribute names). -/
def inferredCondition (src dest : EntityJ) (refAttr destAttr : String) : Exp :=
  mkBin "eq" (.e (.fieldE src.aliasName refAttr .noneE Option.none))
    (.e (.fieldE dest.aliasName destAttr .noneE Option.none))

/-- `BaseSelectQuery.join` for an already-resolved source, without an
explicit condition: cross joins take no condition; for qualified joins the
destination's fields are searched and the *first* reference to the source
is used, raising only when none exists. -/
def joinBuild (src dest : EntityJ) (jt : JoinTy) (asArg : Option String) :
    Except PyError JoinBuilt :=
  let asName :=
    match asArg with
    | some a => some a
    | Option.none => findBackref dest.ancestors src.backrefs
  if jt = .cross then .ok ⟨asName, dest.eid, jt, Option.none⟩
  else
    match findRefField src.ancestors dest.fields with
    | Option.none =>
      .error (.runtimeError "Could not find join condition between src and dest.")
    | some (destAttr, r) =>
      .ok ⟨asName, dest.eid, jt, some (inferredCondition src dest r.attrName destAttr)⟩

/-! ### Expression-object mutability (`Expr.__init__`, `Expr.alias`)

Node identity is modelled by an index into a heap of expression objects;
`args` entries are object references or plain scalars. -/

inductive PyArg where
  | ref (r : Nat)
  | scalar (s : Scalar)
  deriving DecidableEq, Repr

structure ExprObj where
  op : String
  args : List PyArg
  aliasAttr : Option String
  deriving DecidableEq, Repr, Inhabited

/-- `Expr.__init__`: allocate a fresh node with the given op and args and a
`None` alias; returns the new object's identity. -/
def exprInit (h : List ExprObj) (op : String) (args : List PyArg) :
    List ExprObj × Nat :=
  (h ++ [⟨op, args, Option.none⟩], h.length)

/-- Any binary dunder operator: `Expr(op, self, other)`. -/
def binOpCtor (h : List ExprObj) (op : String) (a b : PyArg) :
    List ExprObj × Nat :=
  exprInit h op [a, b]

/-- `Expr.alias`: assign `self.__alias__` in place and `return self`. -/
def aliasOp (h : List ExprObj) (r : Nat) (name : String)
    (tableAlias : Option String) : List ExprObj × Nat :=
  let newAlias :=
    match tableAlias with
    | some t => t ++ "." ++ name
    | Option.none => name
  (h.set r { h.getD r default with aliasAttr := some newAlias }, r)

/-! ## Argument-collection lemmas

Every successful emission appends exactly the depth-first scalars of the
emitted value to the argument list. -/

@[simp] theorem dfsV_e (x : Exp) : dfsV (.e x) = dfsE x := by
  rw [dfsV]

@[simp] theorem dfsV_s (v : Scalar) : dfsV (.s v) = [v] := by
  rw [dfsV]

mutual

theorem emitV_args : ∀ (v : Val) (st : List Scalar) (r : String × List Scalar),
    emitV v st = .ok r → r.2 = st ++ dfsV v
  | .s sc, st, r, h => by
    simp only [emitV, emitArg, argsCall, Except.ok.injEq] at h
    simp [← h, dfsV]
  | .e x, st, r, h => by
    rw [dfsV]
    exact emitE_args x st r h

theorem emitE_args : ∀ (x : Exp) (st : List Scalar) (r : String × List Scalar),
    emitE x st = .ok r → r.2 = st ++ dfsE x
  | .lit v al, st, r, h => by
    simp only [emitE, Except.ok.injEq] at h
    simp [← h, dfsE]
  | .fieldE tbl col .noneE al, st, r, h => by
    simp only [emitE, Except.ok.injEq] at h
    simp [← h, dfsE]
  | .fieldE tbl col (.someE ex) al, st, r, h => by
    simp only [emitE] at h
    rw [dfsE]
    exact emitE_args ex st r h
  | .node op args al, st, r, h => by
    rw [dfsE]
    simp only [emitE] at h
    split at h
    · exact absurd h (by simp)
    · exact absurd h (by simp)
    · exact absurd h (by simp)
    · exact absurd h (by simp)
    · exact absurd h (by simp)
    · -- fnK branch
      split at h
      · exact absurd h (by simp)
      · rename_i ss st1 hc
        simp only [Except.ok.injEq] at h
        have := emitCallArgs_args args st (ss, st1) hc
        rw [← h]
        exact this
    · -- opK branch
      split at h
      · exact absurd h (by simp)
      · rename_i ss st1 hc
        simp only [Except.ok.injEq] at h
        have := emitOpArgs_args (tierOfOp op) args st (ss, st1) hc
        rw [← h]
        exact this

theorem emitCallArgs_args : ∀ (l : ValList) (st : List Scalar)
    (r : List String × List Scalar),
    emitCallArgs l st = .ok r → r.2 = st ++ dfsL l
  | .nil, st, r, h => by
    simp only [emitCallArgs, Except.ok.injEq] at h
    simp [← h, dfsL]
  | .cons a rest, st, r, h => by
    rw [dfsL]
    simp only [emitCallArgs] at h
    split at h
    · exact absurd h (by simp)
    · rename_i sa sta ha
      split at h
      · exact absurd h (by simp)
      · rename_i ss st2 hrest
        simp only [Except.ok.injEq] at h
        have h1 : sta = st ++ dfsV a := emitV_args a st (sa, sta) ha
        have h2 : st2 = sta ++ dfsL rest := emitCallArgs_args rest sta (ss, st2) hrest
        rw [← h]
        simp [h2, h1]

theorem emitOpArgs_args : ∀ (p : Nat) (l : ValList) (st : List Scalar)
    (r : List String × List Scalar),
    emitOpArgs p l st = .ok r → r.2 = st ++ dfsL l
  | p, .nil, st, r, h => by
    simp only [emitOpArgs, Except.ok.injEq] at h
    simp [← h, dfsL]
  | p, .cons a rest, st, r, h => by
    rw [dfsL]
    simp only [emitOpArgs] at h
    split at h
    · exact absurd h (by simp)
    · rename_i sa sta ha
      split at h
      · exact absurd h (by simp)
      · rename_i ss st2 hrest
        simp only [Except.ok.injEq] at h
        have h1 : sta = st ++ dfsV a := emitV_args a st (sa, sta) ha
        have h2 : st2 = sta ++ dfsL rest := emitOpArgs_args p rest sta (ss, st2) hrest
        rw [← h]
        simp [h2, h1]

end

theorem emitSeq_args : ∀ (l : List Val) (st : List Scalar)
    (r : List String × List Scalar),
    emitSeq l st = .ok r → r.2 = st ++ (l.map dfsV).flatten
  | [], st, r, h => by
    simp only [emitSeq, Except.ok.injEq] at h
    simp [← h]
  | a :: rest, st, r, h => by
    simp only [emitSeq] at h
    split at h
    · exact absurd h (by simp)
    · rename_i sa sta ha
      split at h
      · exact absurd h (by simp)
      · rename_i ss st2 hrest
        simp only [Except.ok.injEq] at h
        have h1 : sta = st ++ dfsV a := emitV_args a st (sa, sta) ha
        have h2 : st2 = sta ++ (rest.map dfsV).flatten :=
          emitSeq_args rest sta (ss, st2) hrest
        rw [← h]
        simp [h2, h1]

theorem renderValue_args (x : Exp) (st : List Scalar)
    (r : String × List Scalar) (h : renderValue x st = .ok r) :
    r.2 = st ++ dfsE x := by
  simp only [renderValue] at h
  split at h
  · exact absurd h (by simp)
  · rename_i sa sta ha
    have h1 : sta = st ++ dfsE x := emitE_args x st (sa, sta) ha
    split at h <;> simp only [Except.ok.injEq] at h <;> rw [← h] <;> exact h1

theorem renderValues_args : ∀ (l : List Exp) (st : List Scalar)
    (r : List String × List Scalar),
    renderValues l st = .ok r → r.2 = st ++ (l.map dfsE).flatten
  | [], st, r, h => by
    simp only [renderValues, Except.ok.injEq] at h
    simp [← h]
  | x :: rest, st, r, h => by
    simp only [renderValues] at h
    split at h
    · exact absurd h (by simp)
    · rename_i sa sta ha
      split at h
      · exact absurd h (by simp)
      · rename_i ss st2 hrest
        simp only [Except.ok.injEq] at h
        have h1 : sta = st ++ dfsE x := renderValue_args x st (sa, sta) ha
        have h2 : st2 = sta ++ (rest.map dfsE).flatten :=
          renderValues_args rest sta (ss, st2) hrest
        rw [← h]
        simp [h2, h1]

theorem goJoins_args
    (recurse : Entity → List Scalar → Except PyError (List String × List Scalar))
    (spec : Entity → List Scalar)
    (hrec : ∀ (model : Entity) (st : List Scalar) (r : List String × List Scalar),
      recurse model st = .ok r → r.2 = st ++ spec model) :
    ∀ (l : List JoinM) (st : List Scalar) (r : List String × List Scalar),
    goJoins recurse l st = .ok r →
    r.2 = st ++ goJoinScalars spec l
  | [], st, r, h => by
    simp only [goJoins, Except.ok.injEq] at h
    simp [← h, goJoinScalars]
  | j :: rest, st, r, h => by
    rw [goJoinScalars]
    simp only [goJoins] at h
    split at h
    · exact absurd h (by simp)
    · rename_i onTks st1 hcond
      split at h
      · exact absurd h (by simp)
      · rename_i subTks st2 hsub
        split at h
        · exact absurd h (by simp)
        · rename_i tks st3 htks
          simp only [Except.ok.injEq] at h
          have h2 : st2 = st1 ++ spec j.dest :=
            hrec j.dest st1 (subTks, st2) hsub
          have h3 : st3 = st2 ++ goJoinScalars spec rest :=
            goJoins_args recurse spec hrec rest st2 (tks, st3) htks
          have h1 : st1 = st ++ (if j.joinTy ≠ .cross then dfsV (condVal j) else []) := by
            by_cases hc : j.joinTy = .cross
            · rw [hc] at hcond
              simp only [ne_eq, not_true_eq_false, if_false, Except.ok.injEq,
                Prod.mk.injEq] at hcond
              simp [hc, ← hcond.2]
            · rw [if_pos (by simpa using hc)] at hcond
              split at hcond
              · exact absurd hcond (by simp)
              · rename_i sc stc hsc
                simp only [Except.ok.injEq, Prod.mk.injEq] at hcond
                have hv : stc = st ++ dfsV (condVal j) :=
                  emitV_args (condVal j) st (sc, stc) hsc
                rw [if_pos (by simpa using hc), ← hcond.2]
                exact hv
          rw [← h]
          simp only [h3, h2, h1]
          simp

theorem addJoins_args : ∀ (joins : List (Nat × List JoinM)) (fuel : Nat)
    (model : Entity) (st : List Scalar) (r : List String × List Scalar),
    addJoins joins fuel model st = .ok r →
    r.2 = st ++ joinScalars joins fuel model
  | joins, 0, model, st, r, h => by
    simp only [addJoins] at h
    exact absurd h (by simp)
  | joins, fuel + 1, model, st, r, h => by
    rw [joinScalars]
    simp only [addJoins] at h
    exact goJoins_args (addJoins joins fuel) (joinScalars joins fuel)
      (addJoins_args joins fuel) (joinLookup joins model.eid) st r h

/-! ### `FROM`-entry de-duplication lemmas -/

theorem fromEntry_args (joins : List (Nat × List JoinM)) (fuel : Nat)
    (e : Entity) (st : List Scalar) (r : String × List Scalar)
    (h : fromEntry joins fuel e st = .ok r) :
    r.2 = st ++ joinScalars joins fuel e := by
  simp only [fromEntry] at h
  split at h
  · exact absurd h (by simp)
  · rename_i tks st1 htks
    simp only [Except.ok.injEq] at h
    have := addJoins_args joins fuel e st (tks, st1) htks
    rw [← h]
    exact this

theorem fromEntries_args : ∀ (joins : List (Nat × List JoinM)) (fuel : Nat)
    (l : List Entity) (st : List Scalar) (r : List String × List Scalar),
    fromEntries joins fuel l st = .ok r →
    r.2 = st ++ (l.map (fun e => joinScalars joins fuel e)).flatten
  | joins, fuel, [], st, r, h => by
    simp only [fromEntries, Except.ok.injEq] at h
    simp [← h]
  | joins, fuel, e :: rest, st, r, h => by
    simp only [fromEntries] at h
    split at h
    · exact absurd h (by simp)
    · rename_i sa sta ha
      split at h
      · exact absurd h (by simp)
      · rename_i ss st2 hrest
        simp only [Except.ok.injEq] at h
        have h1 : sta = st ++ joinScalars joins fuel e :=
          fromEntry_args joins fuel e st (sa, sta) ha
        have h2 : st2 = sta ++ (rest.map (fun x => joinScalars joins fuel x)).flatten :=
          fromEntries_args joins fuel rest sta (ss, st2) hrest
        rw [← h]
        simp [h2, h1]

/-- The `from_set` loop renders exactly the identity-de-duplicated entity
list, in order. -/
theorem fromLoop_eq_fromEntries (joins : List (Nat × List JoinM)) (fuel : Nat) :
    ∀ (l : List Entity) (seen : List Entity) (st : List Scalar),
    fromLoop joins fuel seen l st =
      fromEntries joins fuel (dedupFirstAux seen l) st
  | [], seen, st => by
    simp [fromLoop, dedupFirstAux, fromEntries]
  | e :: rest, seen, st => by
    by_cases hm : e ∈ seen
    · simp only [fromLoop, if_pos hm, dedupFirstAux]
      exact fromLoop_eq_fromEntries joins fuel rest seen st
    · simp only [fromLoop, if_neg hm, dedupFirstAux, fromEntries]
      cases ha : fromEntry joins fuel e st with
      | error er => rfl
      | ok ra =>
        obtain ⟨sa, sta⟩ := ra
        simp only []
        rw [fromLoop_eq_fromEntries joins fuel rest (e :: seen) sta]

section DedupFirst

variable {α : Type} [DecidableEq α]

theorem mem_dedupFirstAux : ∀ (l seen : List α) (a : α),
    a ∈ dedupFirstAux seen l ↔ a ∈ l ∧ a ∉ seen
  | [], seen, a => by simp [dedupFirstAux]
  | e :: rest, seen, a => by
    by_cases hm : e ∈ seen
    · rw [dedupFirstAux, if_pos hm, mem_dedupFirstAux rest seen a]
      constructor
      · rintro ⟨h1, h2⟩
        exact ⟨List.mem_cons_of_mem e h1, h2⟩
      · rintro ⟨h1, h2⟩
        rcases List.mem_cons.mp h1 with he | he
        · exact absurd hm (he ▸ h2)
        · exact ⟨he, h2⟩
    · rw [dedupFirstAux, if_neg hm]
      constructor
      · intro h
        rcases List.mem_cons.mp h with he | hin
        · exact ⟨List.mem_cons.mpr (Or.inl he), he ▸ hm⟩
        · obtain ⟨h1, h2⟩ := (mem_dedupFirstAux rest (e :: seen) a).mp hin
          exact ⟨List.mem_cons.mpr (Or.inr h1),
            fun hs => h2 (List.mem_cons_of_mem e hs)⟩
      · rintro ⟨hmem, hns⟩
        rcases List.mem_cons.mp hmem with he | h1
        · exact List.mem_cons.mpr (Or.inl he)
        · by_cases hae : a = e
          · exact List.mem_cons.mpr (Or.inl hae)
          · refine List.mem_cons.mpr (Or.inr
              ((mem_dedupFirstAux rest (e :: seen) a).mpr ⟨h1, fun hs => ?_⟩))
            rcases List.mem_cons.mp hs with h | h
            · exact hae h
            · exact hns h

theorem dedupFirstAux_sublist : ∀ (l seen : List α),
    (dedupFirstAux seen l).Sublist l
  | [], seen => by simp [dedupFirstAux]
  | e :: rest, seen => by
    by_cases hm : e ∈ seen
    · rw [dedupFirstAux, if_pos hm]
      exact (dedupFirstAux_sublist rest seen).cons e
    · rw [dedupFirstAux, if_neg hm]
      exact (dedupFirstAux_sublist rest (e :: seen)).cons₂ e

theorem dedupFirstAux_nodup : ∀ (l seen : List α),
    (dedupFirstAux seen l).Nodup
  | [], seen => by simp [dedupFirstAux]
  | e :: rest, seen => by
    by_cases hm : e ∈ seen
    · rw [dedupFirstAux, if_pos hm]
      exact dedupFirstAux_nodup rest seen
    · rw [dedupFirstAux, if_neg hm]
      refine List.Nodup.cons ?_ (dedupFirstAux_nodup rest (e :: seen))
      intro he
      exact ((mem_dedupFirstAux rest (e :: seen) e).mp he).2 (List.mem_cons_self e _)

/-- The kept occurrences appear in first-seen order: positions of first
occurrences in the original list are strictly increasing. -/
theorem dedupFirstAux_pairwise : ∀ (l seen : List α),
    (dedupFirstAux seen l).Pairwise (fun a b => l.indexOf a < l.indexOf b)
  | [], seen => by simp [dedupFirstAux]
  | e :: rest, seen => by
    have lift : ∀ (s2 : List α), e ∈ s2 → (dedupFirstAux s2 rest).Pairwise
        (fun a b => (e :: rest).indexOf a < (e :: rest).indexOf b) := by
      intro s2 hes
      refine List.Pairwise.imp_of_mem ?_ (dedupFirstAux_pairwise rest s2)
      intro a b ha hb hab
      have hane : e ≠ a := fun h => ((mem_dedupFirstAux rest s2 a).mp ha).2 (h ▸ hes)
      have hbne : e ≠ b := fun h => ((mem_dedupFirstAux rest s2 b).mp hb).2 (h ▸ hes)
      rw [List.indexOf_cons_ne rest hane, List.indexOf_cons_ne rest hbne]
      exact Nat.succ_lt_succ hab
    by_cases hm : e ∈ seen
    · rw [dedupFirstAux, if_pos hm]
      exact lift seen hm
    · rw [dedupFirstAux, if_neg hm]
      refine List.Pairwise.cons ?_ (lift (e :: seen) (List.mem_cons_self e seen))
      intro b hb
      have hbne : e ≠ b := by
        intro hbe
        exact ((mem_dedupFirstAux rest (e :: seen) b).mp hb).2
          (hbe ▸ List.mem_cons_self e seen)
      rw [List.indexOf_cons_self, List.indexOf_cons_ne rest hbne]
      exact Nat.succ_pos _

end DedupFirst

/-! ### Whole-query argument order -/

theorem selectCompile_args (q : SelectQ) (fuel : Nat) (r : String × List Scalar)
    (h : selectCompile q fuel = .ok r) : r.2 = queryScalars (.sel q) fuel := by
  simp only [selectCompile] at h
  split at h
  · exact absurd h (by simp)
  · rename_i vals st1 hvals
    have h1 : st1 = [] ++ (q.values.map dfsE).flatten :=
      renderValues_args q.values [] (vals, st1) hvals
    split at h
    · exact absurd h (by simp)
    · rename_i fromStr st2 hfrom
      have h2 : st2 = st1 ++ (if q.froms.isEmpty then [] else
          ((dedupFirst q.froms).map (fun e => joinScalars q.joins fuel e)).flatten) := by
        by_cases hf : q.froms.isEmpty
        · rw [if_pos hf] at hfrom
          simp only [Except.ok.injEq, Prod.mk.injEq] at hfrom
          simp [hf, ← hfrom.2]
        · rw [if_neg hf] at hfrom
          rw [fromLoop_eq_fromEntries] at hfrom
          split at hfrom
          · exact absurd hfrom (by simp)
          · rename_i entries st2a hentries
            simp only [Except.ok.injEq, Prod.mk.injEq] at hfrom
            have hE := fromEntries_args q.joins fuel (dedupFirstAux [] q.froms)
              st1 (entries, st2a) hentries
            rw [if_neg hf, ← hfrom.2, dedupFirst]
            exact hE
      split at h
      · exact absurd h (by simp)
      · rename_i whereStr st3 hwhere
        have h3 : st3 = st2 ++ (if q.filters.isEmpty then [] else
            (q.filters.map dfsE).flatten) := by
          by_cases hq : q.filters.isEmpty
          · rw [if_pos hq] at hwhere
            simp only [Except.ok.injEq, Prod.mk.injEq] at hwhere
            simp [hq, ← hwhere.2]
          · rw [if_neg hq] at hwhere
            split at hwhere
            · exact absurd hwhere (by simp)
            · rename_i fs st3a hfs
              simp only [Except.ok.injEq, Prod.mk.injEq] at hwhere
              have hS := emitSeq_args (q.filters.map .e) st2 (fs, st3a) hfs
              rw [if_neg hq, ← hwhere.2]
              simpa using hS
        simp only [Except.ok.injEq] at h
        rw [← h]
        simp only [queryScalars]
        simp [h3, h2, h1]

theorem insertCompile_args (q : InsertQ) (fuel : Nat) (r : String × List Scalar)
    (h : insertCompile q = .ok r) : r.2 = queryScalars (.ins q) fuel := by
  simp only [insertCompile] at h
  by_cases hv : q.values.isEmpty
  · rw [if_pos hv] at h
    exact absurd h (by simp)
  · rw [if_neg hv] at h
    split at h
    · exact absurd h (by simp)
    · rename_i vals st1 hvals
      have h1 : st1 = [] ++ ((q.values.map Prod.snd).map dfsV).flatten :=
        emitSeq_args (q.values.map Prod.snd) [] (vals, st1) hvals
      split at h
      · exact absurd h (by simp)
      · rename_i retStr st2 hret
        have h2 : st2 = st1 ++ (if q.returning.isEmpty then [] else
            (q.returning.map dfsE).flatten) := by
          by_cases hr : q.returning.isEmpty
          · rw [if_pos hr] at hret
            simp only [Except.ok.injEq, Prod.mk.injEq] at hret
            simp [hr, ← hret.2]
          · rw [if_neg hr] at hret
            split at hret
            · exact absurd hret (by simp)
            · rename_i rets st2a hrets
              simp only [Except.ok.injEq, Prod.mk.injEq] at hret
              have hR := renderValues_args q.returning st1 (rets, st2a) hrets
              rw [if_neg hr, ← hret.2]
              exact hR
        simp only [Except.ok.injEq] at h
        rw [← h]
        simp only [queryScalars, if_neg hv]
        simp [h2, h1, Function.comp]
        rfl

theorem deleteCompile_args (q : DeleteQ) (fuel : Nat) (r : String × List Scalar)
    (h : deleteCompile q = .ok r) : r.2 = queryScalars (.delQ q) fuel := by
  simp only [deleteCompile] at h
  split at h
  · exact absurd h (by simp)
  · rename_i whereStr st1 hwhere
    have h1 : st1 = (if q.filters.isEmpty then [] else
        (q.filters.map dfsE).flatten) := by
      by_cases hq : q.filters.isEmpty
      · rw [if_pos hq] at hwhere
        simp only [Except.ok.injEq, Prod.mk.injEq] at hwhere
        simp [hq, ← hwhere.2]
      · rw [if_neg hq] at hwhere
        split at hwhere
        · exact absurd hwhere (by simp)
        · rename_i fs st1a hfs
          simp only [Except.ok.injEq, Prod.mk.injEq] at hwhere
          have hS := emitSeq_args (q.filters.map .e) [] (fs, st1a) hfs
          rw [if_neg hq, ← hwhere.2]
          simpa using hS
    simp only [Except.ok.injEq] at h
    rw [← h]
    simp only [queryScalars]
    exact h1

/-- Every successful compilation yields exactly the depth-first scalar list
of the query metadata, in traversal order. -/
theorem build_args (q : QueryM) (fuel : Nat) (r : String × List Scalar)
    (h : build q fuel = .ok r) : r.2 = queryScalars q fuel := by
  cases q with
  | sel q => exact selectCompile_args q fuel r h
  | ins q => exact insertCompile_args q fuel r h
  | delQ q => exact deleteCompile_args q fuel r h

/-! ### Transaction-engine lemmas -/

/-- `_check_state` passes exactly when the handle is topmost, the state is
not borrowed, and the handle's recorded connection exists and is the state's
current connection. -/
theorem checkState_none_iff (st : EngState) (i : Nat) (hd : TxHandle)
    (hh : st.handles.get? i = some hd) :
    checkState st i = Option.none ↔
      (st.stack.getLast? = some i ∧ st.borrows = 0 ∧
        ∃ c, hd.conn = some c ∧ st.connection = some c) := by
  simp only [checkState, hh]
  by_cases hb : st.borrows = 0
  · rw [if_neg (by simp [hb])]
    cases hl : st.stack.getLast? with
    | none => simp
    | some top =>
      dsimp only
      by_cases hti : top = i
      · subst hti
        rw [if_neg (by simp)]
        cases hc : hd.conn with
        | none => simp
        | some c =>
          dsimp only
          by_cases hcc : st.connection = some c
          · rw [if_neg (by simp [hcc])]
            simp [hb, hcc]
          · rw [if_pos (by simp [hcc])]
            simp only [hb]
            constructor
            · intro h
              exact absurd h (by simp)
            · rintro ⟨h1, h2, c2, hc2, hcc2⟩
              rw [Option.some.injEq] at hc2
              exact absurd (hc2 ▸ hcc2) hcc
      · rw [if_pos hti]
        constructor
        · intro h
          exact absurd h (by simp)
        · rintro ⟨h1, h2, h3⟩
          rw [Option.some.injEq] at h1
          exact absurd h1 hti
  · rw [if_pos hb]
    constructor
    · intro h
      exact absurd h (by simp)
    · rintro ⟨h1, h2, h3⟩
      exact absurd h2 hb

/-- On a pass of `_check_state`, `_pop_transaction` cannot fail. -/
theorem popTransaction_ok (st : EngState) (i : Nat) (hd : TxHandle) (c : Nat)
    (hh : st.handles.get? i = some hd) (hc : hd.conn = some c) :
    (popTransaction st i).2 = Option.none := by
  simp only [popTransaction, hh, hc]
  split <;> rfl

/-! ### Concrete engine runs -/

/-- `engine.transaction()` on a fresh task state: context 0 allocated. -/
def engSt1 : EngState := (engineTransaction initialEngState).1

/-- Outermost `begin`: await context 0. -/
def engSt2 : EngState := (awaitCtx engSt1 0).1

/-- `engine.transaction()` again: context 1 allocated. -/
def engSt3 : EngState := (engineTransaction engSt2).1

/-- Nested `begin`: await context 1 while a connection is already held. -/
def engSt4 : EngState := (awaitCtx engSt3 1).1

/-! ## Claims -/

/-- A wrapped rendering is never equal to the bare rendering. -/
theorem paren_string_neq (s : String) : "(" ++ s ++ ")" ≠ s := by
  intro h
  have hlen := congrArg String.length h
  rw [String.length_append, String.length_append] at hlen
  have h1 : ("(" : String).length = 1 := rfl
  have h2 : (")" : String).length = 1 := rfl
  omega

/-- The or-node child used to refute the universal parenthesization claim. -/
def c1Child : Exp := mkBin "or" (.s (.bool true)) (.s (.bool false))

/-- `abs(a | b)` as built by `Expr.__abs__`: an `abs` node over an `or` node. -/
def c1Parent : Exp := mkUn "abs" (.e c1Child)

/-- C1 counterexample: `abs` is rendered as a function call (`emit_call`),
which never parenthesizes its arguments.  Its `or` child sits in a strictly
more loosely binding tier (10) than the `abs` node's default tier (6), yet
the compiler renders `abs($1 OR $2)` with no parentheses around the child,
so "wrapped iff strictly looser" is false for nodes rendered by the
compiler's call renderer. -/
theorem c1_counterexample :
    emitV (.e c1Parent) [] = .ok ("abs($1 OR $2)", [.bool true, .bool false])
    ∧ tierOfOp (Exp.op c1Parent) < getPrecedence (.e c1Child)
    ∧ emitCallArgs (.cons (.e c1Child) .nil) [] =
        .ok (["$1 OR $2"], [.bool true, .bool false]) := by
  refine ⟨by rfl, by decide, by rfl⟩

/-- C1 (amended): for nodes rendered through the operator renderer
`emit_op`, a child fragment is wrapped in parentheses iff its tier binds
strictly more loosely (strictly larger tier index) than the parent
operator's tier, and a child in the same or a tighter tier is left bare;
nodes rendered as function calls (`emit_call`) never wrap their rendered
arguments.  The last two conjuncts show `emit_op`'s argument loop passes
every child through `parenthesize` while `emit_call`'s argument loop
inserts the rendered child unchanged. -/
theorem c1_amended_parenthesization :
    (∀ (pOp : String) (a : Val) (s : String),
      (parenthesize (tierOfOp pOp) a s = "(" ++ s ++ ")" ↔
        tierOfOp pOp < getPrecedence a)
      ∧ (parenthesize (tierOfOp pOp) a s = s ↔
        ¬ tierOfOp pOp < getPrecedence a))
    ∧ (∀ (op pre inf suf : String) (args : ValList) (al : Option String)
        (st : List Scalar) (ss : List String) (st2 : List Scalar),
        emitterFor op = some (.opK pre inf suf) →
        emitOpArgs (tierOfOp op) args st = .ok (ss, st2) →
        emitE (.node op args al) st = .ok (pre ++ joinSep inf ss ++ suf, st2))
    ∧ (∀ (op name : String) (args : ValList) (al : Option String)
        (st : List Scalar) (ss : List String) (st2 : List Scalar),
        emitterFor op = some (.fnK name) →
        emitCallArgs args st = .ok (ss, st2) →
        emitE (.node op args al) st =
          .ok (name ++ "(" ++ joinSep ", " ss ++ ")", st2))
    ∧ (∀ (p : Nat) (a : Val) (rest : ValList) (st sta st2 : List Scalar)
        (sa : String) (ssr : List String),
        emitV a st = .ok (sa, sta) → emitOpArgs p rest sta = .ok (ssr, st2) →
        emitOpArgs p (.cons a rest) st = .ok (parenthesize p a sa :: ssr, st2))
    ∧ (∀ (a : Val) (rest : ValList) (st sta st2 : List Scalar)
        (sa : String) (ssr : List String),
        emitV a st = .ok (sa, sta) → emitCallArgs rest sta = .ok (ssr, st2) →
        emitCallArgs (.cons a rest) st = .ok (sa :: ssr, st2)) := by
  refine ⟨fun pOp a s => ⟨?_, ?_⟩, ?_, ?_, ?_, ?_⟩
  · unfold parenthesize
    by_cases hlt : tierOfOp pOp < getPrecedence a
    · simp [hlt]
    · simp only [if_neg hlt]
      constructor
      · intro h
        exact absurd h.symm (paren_string_neq s)
      · intro h
        exact absurd h hlt
  · unfold parenthesize
    by_cases hlt : tierOfOp pOp < getPrecedence a
    · simp only [if_pos hlt]
      constructor
      · intro h
        exact absurd h (paren_string_neq s)
      · intro h
        exact absurd hlt h
    · simp [hlt]
  · intro op pre inf suf args al st ss st2 hop hargs
    simp only [emitE, hop, hargs]
  · intro op name args al st ss st2 hop hargs
    simp only [emitE, hop, hargs]
  · intro p a rest st sta st2 sa ssr ha hrest
    simp only [emitOpArgs, ha, hrest]
  · intro a rest st sta st2 sa ssr ha hrest
    simp only [emitCallArgs, ha, hrest]

/-- C1 amendment at a concrete input: inside a `mul` parent, an `add` child
(looser tier) is wrapped; inside an `add` parent, a `mul` child (tighter
tier) stays bare. -/
theorem c1_witness :
    parenthesize (tierOfOp "mul") (.e (mkBin "add" (.s (.int 1)) (.s (.int 2))))
      "$1 + $2" = "(" ++ "$1 + $2" ++ ")"
    ∧ parenthesize (tierOfOp "add") (.e (mkBin "mul" (.s (.int 1)) (.s (.int 2))))
      "$1 * $2" = "$1 * $2" :=
  ⟨(c1_amended_parenthesization.1 "mul"
      (.e (mkBin "add" (.s (.int 1)) (.s (.int 2)))) "$1 + $2").1.mpr (by decide),
   (c1_amended_parenthesization.1 "add"
      (.e (mkBin "mul" (.s (.int 1)) (.s (.int 2)))) "$1 * $2").2.mpr (by decide)⟩

/-- C2 counterexample: a nested handle that is topmost on the stack, with
the state not borrowed, fails its commit and rollback with an
`AttributeError` on the never-assigned `_connection` attribute — not a
transaction-state `RuntimeError` — so "in every other state they raise a
TransactionStateError" is false. -/
theorem c2_counterexample :
    engSt4.stack.getLast? = some 1
    ∧ engSt4.borrows = 0
    ∧ (commitCtx engSt4 1).2 = some (.attributeError "_connection")
    ∧ (rollbackCtx engSt4 1).2 = some (.attributeError "_connection")
    ∧ ∀ m, (commitCtx engSt4 1).2 ≠ some (.runtimeError m) := by
  refine ⟨by decide, by decide, by decide, by decide, ?_⟩
  intro m h
  rw [show (commitCtx engSt4 1).2 = some (.attributeError "_connection")
    by decide] at h
  simp at h

/-- C2 (amended): `commit`/`rollback` on a begun handle succeed exactly
when the handle is topmost on the stack, the state is not borrowed, and the
handle's recorded connection exists and equals the state's current
connection.  The failing cases do not uniformly raise a transaction-state
`RuntimeError`: in check order, a borrowed state and a non-topmost handle
and a connection mismatch each raise a `RuntimeError` with its specific
message, but an empty stack raises an `IndexError` (deque indexing) and a
handle whose `_connection` attribute was never assigned — every nested,
non-acquiring handle — raises an `AttributeError`; the third and fourth
conjuncts name the exact exception of every branch.  In every failing case
the state is returned untouched: no driver commit or rollback happens and
nothing is popped or released. -/
theorem c2_amended_commit_rollback (st : EngState) (i : Nat) (hd : TxHandle)
    (hh : st.handles.get? i = some hd) (htx : hd.tx.isSome) :
    ((commitCtx st i).2 = Option.none ↔
      (st.stack.getLast? = some i ∧ st.borrows = 0 ∧
        ∃ c, hd.conn = some c ∧ st.connection = some c))
    ∧ ((rollbackCtx st i).2 = Option.none ↔
      (st.stack.getLast? = some i ∧ st.borrows = 0 ∧
        ∃ c, hd.conn = some c ∧ st.connection = some c))
    ∧ ((commitCtx st i).2 =
      (if st.borrows ≠ 0 then
        some (.runtimeError "Cannot release a transaction that is currently borrowed.")
      else
        match st.stack.getLast? with
        | Option.none => some (.indexError "deque index out of range")
        | some top =>
          if top ≠ i then
            some (.runtimeError "Releasing transaction in incorrect order.")
          else
            match hd.conn with
            | Option.none => some (.attributeError "_connection")
            | some c =>
              if st.connection ≠ some c then
                some (.runtimeError "Task switched when releasing transaction.")
              else Option.none))
    ∧ ((rollbackCtx st i).2 =
      (if st.borrows ≠ 0 then
        some (.runtimeError "Cannot release a transaction that is currently borrowed.")
      else
        match st.stack.getLast? with
        | Option.none => some (.indexError "deque index out of range")
        | some top =>
          if top ≠ i then
            some (.runtimeError "Releasing transaction in incorrect order.")
          else
            match hd.conn with
            | Option.none => some (.attributeError "_connection")
            | some c =>
              if st.connection ≠ some c then
                some (.runtimeError "Task switched when releasing transaction.")
              else Option.none))
    ∧ (∀ e, (commitCtx st i).2 = some e → (commitCtx st i).1 = st)
    ∧ (∀ e, (rollbackCtx st i).2 = some e → (rollbackCtx st i).1 = st) := by
  obtain ⟨t, ht⟩ := Option.isSome_iff_exists.mp htx
  have hiff := checkState_none_iff st i hd hh
  have hcommit : commitCtx st i = (match checkState st i with
      | some e => (st, some e)
      | Option.none =>
        popTransaction { st with events := st.events ++ [DbEvent.commitTx t] } i) := by
    simp only [commitCtx, hh, ht]
  have hrollback : rollbackCtx st i = (match checkState st i with
      | some e => (st, some e)
      | Option.none =>
        popTransaction { st with events := st.events ++ [DbEvent.rollbackTx t] } i) := by
    simp only [rollbackCtx, hh, ht]
  have hchain : checkState st i =
      (if st.borrows ≠ 0 then
        some (.runtimeError "Cannot release a transaction that is currently borrowed.")
      else
        match st.stack.getLast? with
        | Option.none => some (.indexError "deque index out of range")
        | some top =>
          if top ≠ i then
            some (.runtimeError "Releasing transaction in incorrect order.")
          else
            match hd.conn with
            | Option.none => some (.attributeError "_connection")
            | some c =>
              if st.connection ≠ some c then
                some (.runtimeError "Task switched when releasing transaction.")
              else Option.none) := by
    simp only [checkState, hh]
  cases hcs : checkState st i with
  | some e0 =>
    rw [hcs] at hcommit hrollback hchain
    have hrhs : ¬ (st.stack.getLast? = some i ∧ st.borrows = 0 ∧
        ∃ c, hd.conn = some c ∧ st.connection = some c) := by
      intro hr
      rw [hiff.mpr hr] at hcs
      exact absurd hcs (by simp)
    refine ⟨?_, ?_, ?_, ?_, ?_, ?_⟩
    · rw [hcommit]
      simp [hrhs]
    · rw [hrollback]
      simp [hrhs]
    · rw [hcommit, ← hchain]
    · rw [hrollback, ← hchain]
    · intro e he
      rw [hcommit]
    · intro e he
      rw [hrollback]
  | none =>
    rw [hcs] at hcommit hrollback hchain
    obtain ⟨h1, h2, c, hc, hcc⟩ := hiff.mp hcs
    have hpc : (popTransaction
        { st with events := st.events ++ [DbEvent.commitTx t] } i).2 = Option.none :=
      popTransaction_ok _ i hd c hh hc
    have hpr : (popTransaction
        { st with events := st.events ++ [DbEvent.rollbackTx t] } i).2 = Option.none :=
      popTransaction_ok _ i hd c hh hc
    refine ⟨?_, ?_, ?_, ?_, ?_, ?_⟩
    · rw [hcommit]
      simp only [hpc, true_iff]
      exact ⟨h1, h2, c, hc, hcc⟩
    · rw [hrollback]
      simp only [hpr, true_iff]
      exact ⟨h1, h2, c, hc, hcc⟩
    · rw [hcommit, hpc, ← hchain]
    · rw [hrollback, hpr, ← hchain]
    · intro e he
      rw [hcommit] at he
      rw [hpc] at he
      exact absurd he (by simp)
    · intro e he
      rw [hrollback] at he
      rw [hpr] at he
      exact absurd he (by simp)

/-- C2 at concrete inputs: after one `begin` on a fresh context, `commit`
and `rollback` of the (topmost, matching) handle 0 succeed; instantiating
the exact-error conjunct at the nested handle 1 of the two-level run gives
the `AttributeError` branch. -/
theorem c2_witness :
    (commitCtx engSt2 0).2 = Option.none
    ∧ (rollbackCtx engSt2 0).2 = Option.none
    ∧ (commitCtx engSt4 1).2 = some (.attributeError "_connection") := by
  have h2 := c2_amended_commit_rollback engSt2 0
    { conn := some 0, tx := some 0, completed := false } (by decide) (by decide)
  have h4 := c2_amended_commit_rollback engSt4 1
    { conn := Option.none, tx := some 1, completed := false } (by decide) (by decide)
  refine ⟨h2.1.mpr ⟨by decide, by decide, 0, by decide, by decide⟩,
    h2.2.1.mpr ⟨by decide, by decide, 0, by decide, by decide⟩, ?_⟩
  rw [h4.2.2.1]
  decide

/-- C3 (code bug): in the nested run `begin(); begin(); commit(); commit()`
the inner commit raises an `AttributeError` because `__await__` assigns
`self._connection` only in its acquire-a-fresh-connection branch, so a
nested context never gets the attribute and `_check_state` crashes before
the driver commit and before the stack pop.  The stack therefore never
unwinds (the outer commit then fails the topmost check), no commit is sent
and the pooled connection is never released, where the specified behaviour
is one release exactly at the depth 1 to 0 transition.  The single-level run
`begin(); commit()` (last three conjuncts) releases exactly once and clears
the connection, as specified. -/
theorem c3_nested_commit_bug :
    (commitCtx engSt4 1).2 = some (.attributeError "_connection")
    ∧ (commitCtx (commitCtx engSt4 1).1 0).2 =
        some (.runtimeError "Releasing transaction in incorrect order.")
    ∧ (commitCtx (commitCtx engSt4 1).1 0).1.events.filter DbEvent.isRelease = []
    ∧ (commitCtx (commitCtx engSt4 1).1 0).1.events.filter DbEvent.isAcquire =
        [.acquire 0]
    ∧ (commitCtx (commitCtx engSt4 1).1 0).1.connection = some 0
    ∧ (commitCtx (commitCtx engSt4 1).1 0).1.stack = [0, 1]
    ∧ (commitCtx engSt2 0).2 = Option.none
    ∧ (commitCtx engSt2 0).1.events =
        [.acquire 0, .beginTx 0, .commitTx 0, .release 0]
    ∧ (commitCtx engSt2 0).1.connection = Option.none := by
  decide

/-- C4 (confirmed): every successful compilation produces exactly the
depth-first left-to-right scalar list of the traversed query as its
positional arguments, and each scalar is rendered as `$n` where `n` is the
argument list's length after appending it, so the i-th emitted placeholder
is `$i` and binds the i-th argument. -/
theorem c4_positional_args :
    (∀ (q : QueryM) (fuel : Nat) (r : String × List Scalar),
      build q fuel = .ok r → r.2 = queryScalars q fuel)
    ∧ (∀ (st : List Scalar) (v : Scalar),
      emitV (.s v) st = .ok ("$" ++ toString (st.length + 1), st ++ [v]))
    ∧ (∀ (st : List Scalar) (v : Scalar),
      argsCall st v = (st.length + 1, st ++ [v])) := by
  refine ⟨build_args, ?_, ?_⟩ <;> intros <;> rfl

/-- The spec's first example query: two projected fields, one source, two
filters. -/
def c4q : QueryM := .sel
  { values := [.fieldE "users" "id" .noneE Option.none,
      .fieldE "users" "name" .noneE Option.none],
    froms := [⟨0, "users", "users"⟩],
    joins := [],
    filters := [mkBin "eq" (.e (.fieldE "users" "name" .noneE Option.none))
        (.s (.str "Alice")),
      mkBin "ge" (.e (.fieldE "users" "age" .noneE Option.none))
        (.s (.int 30))] }

/-- The compiled form of `c4q`. -/
def c4res : String × List Scalar :=
  ("SELECT \x22users\x22.\x22id\x22 AS \x22users.id\x22, \x22users\x22.\x22name\x22 AS \x22users.name\x22 FROM \x22users\x22 WHERE \x22users\x22.\x22name\x22 = $1 AND \x22users\x22.\x22age\x22 >= $2",
    [.str "Alice", .int 30])

/-- C4 at a concrete input: the example query compiles with `$1`, `$2`
bound to `"Alice"`, `30` in traversal order. -/
theorem c4_witness : build c4q 1 = .ok c4res ∧ c4res.2 = queryScalars c4q 1 :=
  ⟨by rfl, c4_positional_args.1 c4q 1 c4res (by rfl)⟩

/-- The `users` model class. -/
def usersEnt : Entity := ⟨0, "users", "users"⟩

/-- `alias(User, "u")` called twice: two distinct class objects sharing the
same (table, alias) pair. -/
def c5e1 : Entity := aliasEntity usersEnt 1 "u"

def c5e2 : Entity := aliasEntity usersEnt 2 "u"

def c5q : SelectQ :=
  { values := [.fieldE "u" "id" .noneE Option.none],
    froms := [c5e1, c5e2], joins := [], filters := [] }

/-- C5 counterexample: the `FROM` loop de-duplicates by entity *identity*
(Python set membership on class objects), not by (table, alias) pair.  Two
distinct aliases of `users` with the same name render two identical `FROM`
entries, so the rendered clause does contain two entries with the same
(table, alias) pair. -/
theorem c5_counterexample :
    c5e1 ≠ c5e2
    ∧ (c5e1.tableName, c5e1.aliasName) = (c5e2.tableName, c5e2.aliasName)
    ∧ fromLoop [] 1 [] [c5e1, c5e2] [] =
        .ok (["\x22users\x22 AS \x22u\x22", "\x22users\x22 AS \x22u\x22"], [])
    ∧ selectCompile c5q 1 =
        .ok ("SELECT \x22u\x22.\x22id\x22 AS \x22u.id\x22 FROM \x22users\x22 AS \x22u\x22, \x22users\x22 AS \x22u\x22", []) := by
  refine ⟨by decide, by rfl, by rfl, by rfl⟩

/-- C5 (amended): the `FROM` loop renders exactly one entry per *distinct
entity object*, keeping first occurrences in first-seen order (the kept
list is duplicate-free, is a sublist of the declared sources, contains
every declared source, and its elements are ordered by their first
occurrence); distinct entity objects sharing a (table, alias) pair are not
merged. -/
theorem c5_amended_from_dedup :
    (∀ (joins : List (Nat × List JoinM)) (fuel : Nat) (l : List Entity)
      (st : List Scalar),
      fromLoop joins fuel [] l st = fromEntries joins fuel (dedupFirst l) st)
    ∧ (∀ (l : List Entity),
      (dedupFirst l).Nodup
      ∧ (dedupFirst l).Sublist l
      ∧ (∀ e, e ∈ dedupFirst l ↔ e ∈ l)
      ∧ (dedupFirst l).Pairwise (fun a b => l.indexOf a < l.indexOf b)) := by
  constructor
  · intro joins fuel l st
    exact fromLoop_eq_fromEntries joins fuel l [] st
  · intro l
    refine ⟨dedupFirstAux_nodup l [], dedupFirstAux_sublist l [], ?_,
      dedupFirstAux_pairwise l []⟩
    intro e
    rw [dedupFirst, mem_dedupFirstAux]
    simp

/-- A source entity with no backrefs. -/
def c7src : EntityJ := ⟨0, [0], "s", [], []⟩

/-- A destination entity whose fields `a` and `b` *both* reference the
source: an ambiguous foreign-key situation. -/
def c7dest : EntityJ :=
  ⟨1, [1], "d", [⟨"a", some ⟨0, "id"⟩⟩, ⟨"b", some ⟨0, "id"⟩⟩], []⟩

/-- C7 counterexample: with two candidate references from the destination
to the source, `join()` does not fail; it silently builds the condition
from the first matching field (`a`), so "more than one exists → construction
error" is false. -/
theorem c7_counterexample :
    (c7dest.fields.filter (fun f =>
      match f.references with
      | some r => decide (r.tableId ∈ c7src.ancestors)
      | Option.none => false)).length = 2
    ∧ joinBuild c7src c7dest .left Option.none =
        .ok ⟨Option.none, 1, .left, some (inferredCondition c7src c7dest "id" "a")⟩ := by
  exact ⟨by decide, by rfl⟩

/-- C7 (amended): a join declared without a condition fails with a
construction error exactly when *no* destination field references the
source; when at least one does, the builder silently uses the first
matching field in declaration order (even if several match) and succeeds.
The last conjunct shows the search takes the first matching field. -/
theorem c7_amended_join_inference (src dest : EntityJ) (jt : JoinTy)
    (asArg : Option String) (hjt : jt ≠ .cross) :
    ((∃ e, joinBuild src dest jt asArg = .error e) ↔
      findRefField src.ancestors dest.fields = Option.none)
    ∧ (∀ (fa : String) (r : FieldRefM),
        findRefField src.ancestors dest.fields = some (fa, r) →
        joinBuild src dest jt asArg = .ok
          ⟨(match asArg with
            | some a => some a
            | Option.none => findBackref dest.ancestors src.backrefs),
            dest.eid, jt, some (inferredCondition src dest r.attrName fa)⟩)
    ∧ (∀ (f : FieldJ) (rest : List FieldJ) (r : FieldRefM),
        f.references = some r → r.tableId ∈ src.ancestors →
        findRefField src.ancestors (f :: rest) = some (f.attrName, r)) := by
  refine ⟨?_, ?_, ?_⟩
  · simp only [joinBuild, if_neg hjt]
    cases hf : findRefField src.ancestors dest.fields with
    | none => simp
    | some p => simp
  · intro fa r hf
    simp only [joinBuild, if_neg hjt, hf]
  · intro f rest r hr hmem
    simp only [findRefField, hr, if_pos hmem]

/-- C7 amendment at a concrete input: the ambiguous two-reference
destination builds an inner join from the first reference without error. -/
theorem c7_witness :
    joinBuild c7src c7dest .inner Option.none =
      .ok ⟨Option.none, 1, .inner, some (inferredCondition c7src c7dest "id" "a")⟩ :=
  (c7_amended_join_inference c7src c7dest .inner Option.none (by decide)).2.1
    "a" ⟨0, "id"⟩ (by rfl)

/-- C8 (confirmed): `Engine.transaction` succeeds exactly on a
non-inherited, non-borrowed state; an inherited state or a positive borrow
count raises, and on success a fresh transaction context is created. -/
theorem c8_transaction_guard (st : EngState) :
    ((engineTransaction st).2 = .ok st.handles.length ↔
      (st.inherited = false ∧ st.borrows = 0))
    ∧ (st.inherited = true ∨ 0 < st.borrows →
        ∃ m, engineTransaction st = (st, .error (.runtimeError m)))
    ∧ (st.inherited = false ∧ st.borrows = 0 →
        (engineTransaction st).1.handles = st.handles ++
          [{ conn := Option.none, tx := Option.none, completed := false }]) := by
  by_cases hi : st.inherited
  · refine ⟨?_, ?_, ?_⟩
    · simp [engineTransaction, hi]
    · intro h
      exact ⟨"Cannot start new transaction with inherited context.",
        by simp [engineTransaction, hi]⟩
    · rintro ⟨h1, h2⟩
      exact absurd hi (by simp [h1])
  · by_cases hb : st.borrows = 0
    · refine ⟨?_, ?_, ?_⟩
      · simp [engineTransaction, hi, hb]
      · rintro (h | h)
        · exact absurd h (by simp [hi])
        · exact absurd hb (by omega)
      · intro h
        simp [engineTransaction, hi, hb]
    · refine ⟨?_, ?_, ?_⟩
      · simp [engineTransaction, hi, hb]
      · intro h
        exact ⟨"Cannot start a new transaction while it is borrowed.",
          by simp [engineTransaction, hi, hb]⟩
      · rintro ⟨h1, h2⟩
        exact absurd h2 hb

/-- C8 at concrete inputs: a fresh state gets a new context; an inherited
state raises. -/
theorem c8_witness :
    (engineTransaction initialEngState).2 = .ok 0
    ∧ ∃ m, engineTransaction { initialEngState with inherited := true } =
        ({ initialEngState with inherited := true }, .error (.runtimeError m)) :=
  ⟨(c8_transaction_guard initialEngState).1.mpr ⟨rfl, rfl⟩,
   (c8_transaction_guard { initialEngState with inherited := true }).2.1 (Or.inl rfl)⟩

/-- A one-node heap: `Expr("eq", 1, 2)`. -/
def c9heap0 : List ExprObj := (exprInit [] "eq" [.scalar (.int 1), .scalar (.int 2)]).1

/-- C9 counterexample: `Expr.alias` mutates the existing node.  It returns
the same identity, but the node's `__alias__` attribute changes from `None`
to the new name and the heap is observably different, refuting "no
operation on an existing node changes ... any other attribute". -/
theorem c9_counterexample :
    (aliasOp c9heap0 0 "x" Option.none).2 = 0
    ∧ ((aliasOp c9heap0 0 "x" Option.none).1.getD 0 default).aliasAttr = some "x"
    ∧ (c9heap0.getD 0 default).aliasAttr = Option.none
    ∧ (aliasOp c9heap0 0 "x" Option.none).1 ≠ c9heap0 := by
  refine ⟨rfl, rfl, rfl, by decide⟩

/-- C9 (amended): `op` and `args` are never mutated; `alias` updates only
the node's own `__alias__` attribute, in place, returning the same node
identity and leaving every other node untouched; operator applications
(modelled by the binary smart constructor) allocate a fresh node and leave
the existing heap, hence their operands, unchanged. -/
theorem c9_amended_mutation (h : List ExprObj) (r : Nat) (hr : r < h.length)
    (name : String) (t : Option String) :
    ((aliasOp h r name t).2 = r
      ∧ (aliasOp h r name t).1.length = h.length
      ∧ (∀ j, j ≠ r → (aliasOp h r name t).1.getD j default = h.getD j default)
      ∧ ((aliasOp h r name t).1.getD r default).op = (h.getD r default).op
      ∧ ((aliasOp h r name t).1.getD r default).args = (h.getD r default).args
      ∧ ((aliasOp h r name t).1.getD r default).aliasAttr =
          some (match t with
            | some ta => ta ++ "." ++ name
            | Option.none => name))
    ∧ (∀ (hp : List ExprObj) (op : String) (a b : PyArg),
        (binOpCtor hp op a b).1 = hp ++ [⟨op, [a, b], Option.none⟩]
        ∧ (binOpCtor hp op a b).2 = hp.length) := by
  have hset : ∀ (v : ExprObj), (h.set r v).getD r default = v := by
    intro v
    rw [List.getD_eq_getElem?_getD, List.getElem?_set_self (by simpa using hr)]
    rfl
  refine ⟨⟨rfl, by simp [aliasOp], ?_, ?_, ?_, ?_⟩, ?_⟩
  · intro j hj
    simp only [aliasOp]
    rw [List.getD_eq_getElem?_getD,
      List.getElem?_set_ne (fun he => hj he.symm), ← List.getD_eq_getElem?_getD]
  · simp only [aliasOp]
    rw [hset]
  · simp only [aliasOp]
    rw [hset]
  · simp only [aliasOp]
    rw [hset]
  · intro hp op a b
    exact ⟨rfl, rfl⟩

/-- C9 amendment at a concrete input: aliasing node 0 of the one-node heap
keeps the identity and the node's op. -/
theorem c9_witness :
    (aliasOp c9heap0 0 "y" (some "t")).2 = 0
    ∧ ((aliasOp c9heap0 0 "y" (some "t")).1.getD 0 default).op = "eq"
    ∧ ((aliasOp c9heap0 0 "y" (some "t")).1.getD 0 default).aliasAttr = some "t.y" := by
  have h := c9_amended_mutation c9heap0 0 (by decide) "y" (some "t")
  refine ⟨h.1.1, ?_, h.1.2.2.2.2.2⟩
  rw [h.1.2.2.2.1]
  rfl

/-- C10 (confirmed): `__pow__` with the default modulo constructs a
three-argument `pow` node whose third argument is `None`, and the compiler
renders it as a three-argument `power(x, y, $k)` call in which the `None` is
appended to the positional argument list as the bound parameter `$k`. -/
theorem c10_pow_modulo (x y : Val) (st st1 st2 : List Scalar) (sx sy : String)
    (hx : emitV x st = .ok (sx, st1)) (hy : emitV y st1 = .ok (sy, st2)) :
    (mkPow x y).argsOf.get? 2 = some (.s .none)
    ∧ (mkPow x y).op = "pow"
    ∧ emitV (.e (mkPow x y)) st =
        .ok ("power(" ++ joinSep ", " [sx, sy, "$" ++ toString (st2.length + 1)] ++ ")",
          st2 ++ [Scalar.none]) := by
  refine ⟨rfl, rfl, ?_⟩
  show emitE (mkPow x y) st = _
  simp only [mkPow, emitE, emitterFor, emitCallArgs, hx, hy, emitV, emitArg, argsCall]
  rfl

/-- C10 at a concrete input: `2 ** 5` compiles to `power($1, $2, $3)` with
`None` bound as `$3`. -/
theorem c10_witness :
    emitV (.e (mkPow (.s (.int 2)) (.s (.int 5)))) [] =
      .ok ("power($1, $2, $3)", [.int 2, .int 5, Scalar.none]) := by
  have h := (c10_pow_modulo (.s (.int 2)) (.s (.int 5)) [] [.int 2]
    [.int 2, .int 5] "$1" "$2" (by rfl) (by rfl)).2.2
  rw [h]
  rfl

/-! ### Row hydrator (`unwrap_models`, `hique/query.py`)

Python dicts are modelled by insertion-ordered association lists with
replace-in-place update; instances are heap indices.  Instance creation
(`model(__engine__=engine)`) yields a fresh instance with an empty
`__data__`; the `Model` collaborator of `unwrap_models`'s revision accepts
the `__engine__` keyword (the `base.py` snapshot in the tree belongs to a
different revision: `fields.py` and `__init__.py` do not even import
against it). -/

def alookup {κ β : Type} [DecidableEq κ] : List (κ × β) → κ → Option β
  | [], _ => Option.none
  | p :: rest, k => if p.1 = k then some p.2 else alookup rest k

/-- Dict update: replace in place, else append (insertion order). -/
def aset {κ β : Type} [DecidableEq κ] : List (κ × β) → κ → β → List (κ × β)
  | [], k, v => [(k, v)]
  | p :: rest, k, v => if p.1 = k then (k, v) :: rest else p :: aset rest k v

/-- `d.setdefault(k, []).append(x)` for dict-of-list values. -/
def assocAppend {κ β : Type} [DecidableEq κ] :
    List (κ × List β) → κ → β → List (κ × List β)
  | [], k, x => [(k, [x])]
  | p :: rest, k, x =>
    if p.1 = k then (p.1, p.2 ++ [x]) :: rest else p :: assocAppend rest k x

/-- A field of a hydrated model: attribute name and primary-key flag. -/
structure HField where
  attrName : String
  primaryKey : Bool
  deriving DecidableEq, Repr

/-- A model class as the hydrator sees it: identity, `__alias__`,
`__fields__` keys and `__backrefs__` keys. -/
structure HModel where
  mid : Nat
  aliasName : String
  fields : List HField
  backrefs : List String
  deriving DecidableEq, Repr

/-- A join edge as the hydrator sees it: `attr_name` and destination. -/
structure HJoin where
  attrName : Option String
  dest : HModel
  deriving DecidableEq, Repr

inductive HVal where
  | v (s : Scalar)
  | lst (l : List Nat)
  deriving DecidableEq, Repr

/-- A model instance: its class and its `__data__` dict (scalar column
values and ordered child collections) plus the plain attribute dict used by
the hydrator's `setattr`/`getattr` fallback branch. -/
structure Inst where
  cls : Nat
  data : List (String × HVal)
  plain : List (String × List Nat)
  deriving DecidableEq, Repr

abbrev Row := List (String × Scalar)

/-- `row.get(key)`: `None` when absent. -/
def rowGet (row : Row) (k : String) : Scalar :=
  (alookup row k).getD .none

/-- `get_pk_fields`. -/
def getPkFields (m : HModel) : List String :=
  (m.fields.filter (fun f => f.primaryKey)).map
    (fun f => m.aliasName ++ "." ++ f.attrName)

/-- The `models` dict: the source first, then each join destination, in
insertion order, de-duplicated by class identity. -/
def modelsList (source : HModel) (joins : List (HModel × List HJoin)) :
    List HModel :=
  dedupFirst (source :: (joins.map (fun p => p.2.map (fun j => j.dest))).flatten)

/-- Python truthiness of the optional `attr_name`. -/
def truthy : Option String → Bool
  | some s => s ≠ ""
  | Option.none => false

/-- `joins_by_dest`, keyed by destination class identity, keeping only
truthy attribute names. -/
def joinsByDest (joins : List (HModel × List HJoin)) :
    List (Nat × List (HModel × HJoin)) :=
  joins.foldl (fun acc p =>
    p.2.foldl (fun acc j =>
      if truthy j.attrName then assocAppend acc j.dest.mid (p.1, j) else acc) acc) []

structure HydState where
  heap : List Inst
  store : List (Nat × List (List Scalar × Nat))
  result : List Nat
  deriving DecidableEq, Repr

def initHydState (source : HModel) (joins : List (HModel × List HJoin)) :
    HydState :=
  ⟨[], (modelsList source joins).map (fun m => (m.mid, [])), []⟩

/-- `key.split(".", 1)`: split at the first dot only. -/
def splitCharsOnDot : List Char → Option (List Char × List Char)
  | [] => Option.none
  | c :: rest =>
    if c = '.' then some ([], rest)
    else
      match splitCharsOnDot rest with
      | some (a, b) => some (c :: a, b)
      | Option.none => Option.none

def splitKey (k : String) : Option (String × String) :=
  match splitCharsOnDot k.data with
  | some (a, b) => some (⟨a⟩, ⟨b⟩)
  | Option.none => Option.none

/-- The per-row `for model in models` loop: identity-map lookup or creation
of each participating instance, recording source instances in `result` and
every instance in the per-row `objects` dict. -/
def instantiateRow (source : HModel) (models : List (HModel × List String))
    (row : Row) (st : HydState) : HydState × List (String × Nat) :=
  models.foldl (fun (acc : HydState × List (String × Nat)) mp =>
    let (st, objects) := acc
    let pk := mp.2.map (rowGet row)
    match alookup ((alookup st.store mp.1.mid).getD []) pk with
    | some ref => (st, aset objects mp.1.aliasName ref)
    | Option.none =>
      let ref := st.heap.length
      let st := { st with
        heap := st.heap ++ [⟨mp.1.mid, [], []⟩],
        store := aset st.store mp.1.mid
          (aset ((alookup st.store mp.1.mid).getD []) pk ref),
        result := if mp.1.mid = source.mid then st.result ++ [ref] else st.result }
      (st, aset objects mp.1.aliasName ref)) (st, [])

/-- The per-row `for key, value in row.items()` loop: `setattr` on the
aliased instance for each dotted column key. -/
def assignRow (row : Row) (objects : List (String × Nat)) (heap : List Inst) :
    List Inst :=
  row.foldl (fun heap kv =>
    match splitKey kv.1 with
    | Option.none => heap
    | some (al, attr) =>
      match alookup objects al with
      | Option.none => heap
      | some ref =>
        match heap.get? ref with
        | Option.none => heap
        | some inst =>
          heap.set ref { inst with data := aset inst.data attr (.v kv.2) }) heap

/-- `__data__.setdefault(attr, []).append(ref)`: appending a child to a
collection stored under a backref/field key; a scalar already stored there
makes Python crash on `.append`. -/
def dataAppend (inst : Inst) (attr : String) (ref : Nat) :
    Except PyError Inst :=
  match alookup inst.data attr with
  | Option.none => .ok { inst with data := aset inst.data attr (.lst [ref]) }
  | some (.lst l) => .ok { inst with data := aset inst.data attr (.lst (l ++ [ref])) }
  | some (.v _) => .error (.attributeError "append")

/-- The `hasattr`/`setattr`/`getattr` fallback branch for attribute names
that are neither fields nor backrefs. -/
def plainAppend (inst : Inst) (attr : String) (ref : Nat) : Inst :=
  match alookup inst.plain attr with
  | Option.none => { inst with plain := aset inst.plain attr [ref] }
  | some l => { inst with plain := aset inst.plain attr (l ++ [ref]) }

/-- The per-row `for instance in objects.values()` loop: append each
instance to the collection attribute of its join's source instance. -/
def appendRow (jbd : List (Nat × List (HModel × HJoin)))
    (objects : List (String × Nat)) (heap : List Inst) :
    Except PyError (List Inst) :=
  (objects.map Prod.snd).foldlM (fun heap ref =>
    match heap.get? ref with
    | Option.none => .error (.runtimeError "invalid instance")
    | some inst =>
      ((alookup jbd inst.cls).getD []).foldlM (fun (heap : List Inst) sj =>
        let attr := sj.2.attrName.getD ""
        if attr ∈ sj.1.backrefs ∨ attr ∈ sj.1.fields.map (fun f => f.attrName) then
          match alookup objects sj.1.aliasName with
          | Option.none => .error (.runtimeError "KeyError")
          | some srcRef =>
            match heap.get? srcRef with
            | Option.none => .error (.runtimeError "invalid instance")
            | some srcInst =>
              match dataAppend srcInst attr ref with
              | .error e => .error e
              | .ok srcInst => .ok (heap.set srcRef srcInst)
        else if truthy sj.2.attrName then
          match alookup objects sj.1.aliasName with
          | Option.none => .error (.runtimeError "KeyError")
          | some srcRef =>
            match heap.get? srcRef with
            | Option.none => .error (.runtimeError "invalid instance")
            | some srcInst => .ok (heap.set srcRef (plainAppend srcInst attr ref))
        else .ok heap) heap) heap

/-- One full row of `unwrap_models`. -/
def rowStep (source : HModel) (models : List (HModel × List String))
    (jbd : List (Nat × List (HModel × HJoin))) (st : HydState) (row : Row) :
    Except PyError HydState :=
  let (st1, objects) := instantiateRow source models row st
  let heap1 := assignRow row objects st1.heap
  match appendRow jbd objects heap1 with
  | .error e => .error e
  | .ok heap2 => .ok { st1 with heap := heap2 }

/-- `unwrap_models`: fold the rows over the row step. -/
def unwrapModels (source : HModel) (joins : List (HModel × List HJoin))
    (rows : List Row) : Except PyError HydState :=
  let models := (modelsList source joins).map (fun m => (m, getPkFields m))
  let jbd := joinsByDest joins
  rows.foldlM (rowStep source models jbd) (initHydState source joins)

/-! #### The users/orders configuration of the hydration claim -/

/-- `User`: primary key `id`, backref collection `orders`. -/
def userM : HModel := ⟨0, "users", [⟨"id", true⟩], ["orders"]⟩

/-- `Order`: primary key `id`, foreign key `user_id`. -/
def orderM : HModel := ⟨1, "orders", [⟨"id", true⟩, ⟨"user_id", false⟩], []⟩

/-- `users LEFT JOIN orders` with the backref attribute `orders`. -/
def c6joins : List (HModel × List HJoin) := [(userM, [⟨some "orders", orderM⟩])]

/-- A result row carrying one parent key and one child key. -/
def c6row (up c : Scalar) : Row := [("users.id", up), ("orders.id", c)]

/-- Rows sharing the parent key `up` with child keys `cpks`. -/
def c6rows (up : Scalar) (cpks : List Scalar) : List Row :=
  cpks.map (c6row up)

def hydrate (up : Scalar) (cpks : List Scalar) : Except PyError HydState :=
  unwrapModels userM c6joins (c6rows up cpks)

/-- The heap index the identity map assigns to child key `c`: the parent is
instance 0, children follow in first-seen order. -/
def refOf (cpks : List Scalar) (c : Scalar) : Nat :=
  1 + (dedupFirst cpks).indexOf c

/-- The parent's `orders` collection: one identity-mapped entry per row. -/
def c6refs (cpks : List Scalar) : List Nat := cpks.map (refOf cpks)

/-- The hydration state after consuming the rows for `cpks`. -/
def c6expected (up : Scalar) (cpks : List Scalar) : HydState :=
  match cpks with
  | [] => initHydState userM c6joins
  | _ :: _ =>
    { heap := ⟨0, [("id", .v up), ("orders", .lst (c6refs cpks))], []⟩ ::
        (dedupFirst cpks).map (fun c => ⟨1, [("id", .v c)], []⟩),
      store := [(0, [([up], 0)]),
        (1, (dedupFirst cpks).enum.map (fun p => ([p.2], p.1 + 1)))],
      result := [0] }

/-- The parent's `orders` collection of a hydration state. -/
def ordersOf (st : HydState) : List Nat :=
  match alookup (st.heap.getD 0 ⟨0, [], []⟩).data "orders" with
  | some (.lst l) => l
  | _ => []

/-! #### Association-list and dedup lemmas for the hydration proof -/

@[simp] theorem alookup_nil {κ β : Type} [DecidableEq κ] (k : κ) :
    alookup ([] : List (κ × β)) k = Option.none := rfl

@[simp] theorem alookup_cons {κ β : Type} [DecidableEq κ] (p : κ × β)
    (rest : List (κ × β)) (k : κ) :
    alookup (p :: rest) k = if p.1 = k then some p.2 else alookup rest k := by
  rw [alookup]

@[simp] theorem aset_nil {κ β : Type} [DecidableEq κ] (k : κ) (v : β) :
    aset ([] : List (κ × β)) k v = [(k, v)] := rfl

@[simp] theorem aset_cons {κ β : Type} [DecidableEq κ] (p : κ × β)
    (rest : List (κ × β)) (k : κ) (v : β) :
    aset (p :: rest) k v =
      if p.1 = k then (k, v) :: rest else p :: aset rest k v := by
  rw [aset]

theorem aset_not_mem {κ β : Type} [DecidableEq κ] :
    ∀ (l : List (κ × β)) (k : κ) (v : β),
    alookup l k = Option.none → aset l k v = l ++ [(k, v)]
  | [], k, v, _ => rfl
  | p :: rest, k, v, h => by
    rw [alookup_cons] at h
    by_cases hp : p.1 = k
    · rw [if_pos hp] at h
      exact absurd h (by simp)
    · rw [if_neg hp] at h
      rw [aset_cons, if_neg hp, aset_not_mem rest k v h]
      simp

theorem set_get_self {α : Type} : ∀ (l : List α) (i : Nat) (v : α),
    l.get? i = some v → l.set i v = l
  | [], _, _, h => by simp at h
  | a :: rest, 0, v, h => by
    simp only [List.get?, Option.some.injEq] at h
    simp [List.set, h]
  | a :: rest, i + 1, v, h => by
    simp only [List.get?] at h
    simp [List.set, set_get_self rest i v h]

theorem set_append_length {α : Type} : ∀ (l : List α) (x y : α),
    (l ++ [x]).set l.length y = l ++ [y]
  | [], x, y => rfl
  | a :: rest, x, y => by
    simp [List.set, set_append_length rest x y]

theorem get?_indexOf {α : Type} [DecidableEq α] (l : List α) (c : α)
    (h : c ∈ l) : l.get? (l.indexOf c) = some c := by
  rw [List.get?_eq_get (List.indexOf_lt_length.mpr h), List.indexOf_get]

/-- Identity-map lookup in the child store: the stored reference of key `c`
is one past its first-seen position. -/
theorem alookup_enumFrom_store : ∀ (l : List Scalar) (k : Nat) (c : Scalar),
    alookup ((List.enumFrom k l).map (fun p => ([p.2], p.1 + 1))) [c] =
      if c ∈ l then some (l.indexOf c + k + 1) else Option.none
  | [], k, c => by simp
  | a :: rest, k, c => by
    simp only [List.enumFrom, List.map, alookup_cons]
    by_cases hca : a = c
    · subst hca
      simp [List.indexOf_cons_self]
    · rw [if_neg (by simp [hca])]
      rw [alookup_enumFrom_store rest (k + 1) c]
      by_cases hm : c ∈ rest
      · rw [if_pos hm, if_pos (List.mem_cons_of_mem a hm)]
        rw [List.indexOf_cons_ne rest (by simpa using hca)]
        simp only [Option.some.injEq]
        omega
      · rw [if_neg hm, if_neg ?_]
        intro hcm
        rcases List.mem_cons.mp hcm with he | hr
        · exact hca he.symm
        · exact hm hr

theorem dedupFirstAux_append_mem {α : Type} [DecidableEq α] :
    ∀ (l seen : List α) (c : α), (c ∈ l ∨ c ∈ seen) →
    dedupFirstAux seen (l ++ [c]) = dedupFirstAux seen l
  | [], seen, c, h => by
    rcases h with h | h
    · exact absurd h (by simp)
    · simp [dedupFirstAux, h]
  | e :: rest, seen, c, h => by
    by_cases hm : e ∈ seen
    · rw [List.cons_append, dedupFirstAux, if_pos hm, dedupFirstAux, if_pos hm]
      refine dedupFirstAux_append_mem rest seen c ?_
      rcases h with h | h
      · rcases List.mem_cons.mp h with he | hr
        · exact Or.inr (he ▸ hm)
        · exact Or.inl hr
      · exact Or.inr h
    · rw [List.cons_append, dedupFirstAux, if_neg hm, dedupFirstAux, if_neg hm]
      rw [dedupFirstAux_append_mem rest (e :: seen) c ?_]
      rcases h with h | h
      · rcases List.mem_cons.mp h with he | hr
        · exact Or.inr (he ▸ List.mem_cons_self e seen)
        · exact Or.inl hr
      · exact Or.inr (List.mem_cons_of_mem e h)

theorem dedupFirstAux_append_not_mem {α : Type} [DecidableEq α] :
    ∀ (l seen : List α) (c : α), c ∉ l → c ∉ seen →
    dedupFirstAux seen (l ++ [c]) = dedupFirstAux seen l ++ [c]
  | [], seen, c, _, hs => by simp [dedupFirstAux, hs]
  | e :: rest, seen, c, hl, hs => by
    have hcr : c ∉ rest := fun h => hl (List.mem_cons_of_mem e h)
    by_cases hm : e ∈ seen
    · rw [List.cons_append, dedupFirstAux, if_pos hm, dedupFirstAux, if_pos hm]
      exact dedupFirstAux_append_not_mem rest seen c hcr hs
    · rw [List.cons_append, dedupFirstAux, if_neg hm, dedupFirstAux, if_neg hm]
      rw [dedupFirstAux_append_not_mem rest (e :: seen) c hcr ?_]
      · simp
      · intro h
        rcases List.mem_cons.mp h with he | hr
        · exact hl (by simp [he])
        · exact hs hr

theorem dedupFirst_append_mem {α : Type} [DecidableEq α] (l : List α) (c : α)
    (h : c ∈ l) : dedupFirst (l ++ [c]) = dedupFirst l :=
  dedupFirstAux_append_mem l [] c (Or.inl h)

theorem dedupFirst_append_not_mem {α : Type} [DecidableEq α] (l : List α)
    (c : α) (h : c ∉ l) : dedupFirst (l ++ [c]) = dedupFirst l ++ [c] :=
  dedupFirstAux_append_not_mem l [] c h (by simp)

theorem mem_dedupFirst {α : Type} [DecidableEq α] (l : List α) (c : α) :
    c ∈ dedupFirst l ↔ c ∈ l := by
  rw [dedupFirst, mem_dedupFirstAux]
  simp

/-- Appending one more child key extends the expected collection by the
appended key's reference and leaves earlier references unchanged. -/
theorem c6refs_append (p : List Scalar) (c : Scalar) :
    c6refs (p ++ [c]) = c6refs p ++ [refOf (p ++ [c]) c] := by
  by_cases hm : c ∈ p
  · have hf : refOf (p ++ [c]) = refOf p := by
      funext x
      rw [refOf, refOf, dedupFirst_append_mem p c hm]
    rw [c6refs, c6refs, hf, List.map_append]
    rfl
  · rw [c6refs, c6refs, List.map_append]
    congr 1
    refine List.map_congr_left ?_
    intro x hx
    rw [refOf, refOf, dedupFirst_append_not_mem p c hm,
      List.indexOf_append_of_mem ((mem_dedupFirst p x).mpr hx)]

/-- The per-model primary-key field list of the users/orders configuration,
as computed by `unwrap_models`: parent first, then the join destination. -/
def c6models : List (HModel × List String) :=
  [(userM, ["users.id"]), (orderM, ["orders.id"])]

/-- `joins_by_dest` of the users/orders configuration: the one join is
keyed by the destination `Order`. -/
def c6jbd : List (Nat × List (HModel × HJoin)) :=
  [(1, [(userM, ⟨some "orders", orderM⟩)])]

/-- The model list `unwrap_models` derives for the users/orders
configuration is the expected two-entry list. -/
theorem c6models_eq :
    (modelsList userM c6joins).map (fun m => (m, getPkFields m)) = c6models := rfl

/-- The `joins_by_dest` index of the users/orders configuration. -/
theorem c6jbd_eq : joinsByDest c6joins = c6jbd := rfl

/-- Appending a fresh element puts its first occurrence at the end. -/
theorem indexOf_append_self {α : Type} [DecidableEq α] :
    ∀ (l : List α) (c : α), c ∉ l → (l ++ [c]).indexOf c = l.length
  | [], c, _ => by simp [List.indexOf_cons_self]
  | a :: rest, c, h => by
    have hac : a ≠ c := fun he => h (by simp [he])
    rw [List.cons_append, List.indexOf_cons_ne _ hac,
      indexOf_append_self rest c (fun hr => h (List.mem_cons_of_mem a hr))]
    rfl

/-- Enumerating a list with one element appended. -/
theorem enumFrom_concat {α : Type} :
    ∀ (k : Nat) (l : List α) (c : α),
    List.enumFrom k (l ++ [c]) = List.enumFrom k l ++ [(k + l.length, c)]
  | k, [], c => by simp [List.enumFrom]
  | k, a :: rest, c => by
    have h1 : k + 1 + rest.length = k + (rest.length + 1) := by omega
    show (k, a) :: List.enumFrom (k + 1) (rest ++ [c]) =
      (k, a) :: (List.enumFrom (k + 1) rest ++ [(k + (a :: rest).length, c)])
    rw [enumFrom_concat (k + 1) rest c, List.length_cons, h1]

/-- The identity-map store of child keys, after one fresh key is appended:
the fresh key is stored at the next heap reference. -/
theorem store_enum_append (l : List Scalar) (c : Scalar) :
    (l ++ [c]).enum.map (fun p => ([p.2], p.1 + 1)) =
      l.enum.map (fun p => ([p.2], p.1 + 1)) ++ [([c], l.length + 1)] := by
  have h0 : (l ++ [c]).enum = List.enumFrom 0 (l ++ [c]) := rfl
  have h1 : l.enum = List.enumFrom 0 l := rfl
  rw [h0, h1, enumFrom_concat 0 l c, List.map_append, Nat.zero_add]
  rfl

/-- One row moves the expected hydration state forward by its child key:
a seen key reuses its identity-mapped instance, a fresh key allocates the
next heap slot, and either way the parent collection gains one entry. -/
theorem c6_rowStep (up c : Scalar) (p : List Scalar) :
    rowStep userM c6models c6jbd (c6expected up p) (c6row up c) =
      .ok (c6expected up (p ++ [c])) := by
  cases p with
  | nil =>
    simp only [c6expected]
    simp [rowStep, instantiateRow, assignRow, appendRow, dataAppend, plainAppend,
      c6row, rowGet, c6models, c6jbd, initHydState, modelsList, c6joins,
      dedupFirst, dedupFirstAux, getPkFields, truthy, userM, orderM,
      c6refs, refOf, splitKey, splitCharsOnDot,
      List.indexOf_cons_self]
  | cons q0 q1 =>
    have hstore : alookup ((dedupFirst (q0 :: q1)).enum.map
        (fun q => ([q.2], q.1 + 1))) [c] =
        if c ∈ dedupFirst (q0 :: q1) then
          some ((dedupFirst (q0 :: q1)).indexOf c + 1)
        else Option.none := by
      have h0 := alookup_enumFrom_store (dedupFirst (q0 :: q1)) 0 c
      rw [Nat.add_zero] at h0
      exact h0
    by_cases hm : c ∈ (q0 :: q1 : List Scalar)
    · have hmd : c ∈ dedupFirst (q0 :: q1) := (mem_dedupFirst _ c).mpr hm
      rw [if_pos hmd] at hstore
      have hchild : ((dedupFirst (q0 :: q1)).map
          (fun x => (⟨1, [("id", HVal.v x)], []⟩ : Inst))).get?
            ((dedupFirst (q0 :: q1)).indexOf c) =
          some ⟨1, [("id", HVal.v c)], []⟩ := by
        rw [List.get?_map, get?_indexOf _ c hmd]
        rfl
      have hsetc : ((dedupFirst (q0 :: q1)).map
          (fun x => (⟨1, [("id", HVal.v x)], []⟩ : Inst))).set
            ((dedupFirst (q0 :: q1)).indexOf c) ⟨1, [("id", HVal.v c)], []⟩ =
          (dedupFirst (q0 :: q1)).map
            (fun x => (⟨1, [("id", HVal.v x)], []⟩ : Inst)) :=
        set_get_self _ _ _ hchild
      simp only [List.get?_eq_getElem?] at hchild
      have hdedup : dedupFirst ((q0 :: q1) ++ [c]) = dedupFirst (q0 :: q1) :=
        dedupFirst_append_mem _ c hm
      have hrefs : c6refs ((q0 :: q1) ++ [c]) =
          c6refs (q0 :: q1) ++ [(dedupFirst (q0 :: q1)).indexOf c + 1] := by
        rw [c6refs_append, refOf, hdedup]
        simp [Nat.add_comm]
      simp only [c6expected]
      simp [rowStep, instantiateRow, assignRow, appendRow, dataAppend, plainAppend,
        c6row, rowGet, c6models, c6jbd, getPkFields, truthy, userM, orderM,
        splitKey, splitCharsOnDot, hmd, hstore, hchild, hsetc, hdedup, hrefs,
        List.foldlM_cons, List.foldlM_nil]
      refine ⟨⟨?_, ?_⟩, ?_⟩
      · rw [← List.cons_append, hrefs]
      · rw [← List.cons_append, hdedup]
      · rw [← List.cons_append, hdedup]
    · have hmd : c ∉ dedupFirst (q0 :: q1) :=
        fun h => hm ((mem_dedupFirst _ c).mp h)
      rw [if_neg hmd] at hstore
      have hasetc : aset ((dedupFirst (q0 :: q1)).enum.map
          (fun q => ([q.2], q.1 + 1))) [c] ((dedupFirst (q0 :: q1)).length + 1) =
          (dedupFirst (q0 :: q1)).enum.map (fun q => ([q.2], q.1 + 1)) ++
            [([c], (dedupFirst (q0 :: q1)).length + 1)] :=
        aset_not_mem _ _ _ hstore
      have hdedup : dedupFirst ((q0 :: q1) ++ [c]) = dedupFirst (q0 :: q1) ++ [c] :=
        dedupFirst_append_not_mem _ c hm
      have hrefs : c6refs ((q0 :: q1) ++ [c]) =
          c6refs (q0 :: q1) ++ [(dedupFirst (q0 :: q1)).length + 1] := by
        rw [c6refs_append, refOf, hdedup, indexOf_append_self _ c hmd, Nat.add_comm]
      have hget2 : ∀ (x : Inst),
          (List.map (fun q => (⟨1, [("id", HVal.v q)], []⟩ : Inst))
            (dedupFirst (q0 :: q1)) ++ [x])[(dedupFirst (q0 :: q1)).length]? =
            some x := by
        intro x
        rw [← List.get?_eq_getElem?,
          ← List.length_map (dedupFirst (q0 :: q1))
            (fun q => (⟨1, [("id", HVal.v q)], []⟩ : Inst))]
        exact List.get?_concat_length _ x
      have hset2 : ∀ (x y : Inst),
          (List.map (fun q => (⟨1, [("id", HVal.v q)], []⟩ : Inst))
            (dedupFirst (q0 :: q1)) ++ [x]).set (dedupFirst (q0 :: q1)).length y =
            List.map (fun q => (⟨1, [("id", HVal.v q)], []⟩ : Inst))
              (dedupFirst (q0 :: q1)) ++ [y] := by
        intro x y
        rw [← List.length_map (dedupFirst (q0 :: q1))
            (fun q => (⟨1, [("id", HVal.v q)], []⟩ : Inst))]
        exact set_append_length _ x y
      simp only [c6expected]
      simp [rowStep, instantiateRow, assignRow, appendRow, dataAppend, plainAppend,
        c6row, rowGet, c6models, c6jbd, getPkFields, truthy, userM, orderM,
        splitKey, splitCharsOnDot, hstore, hasetc, hget2, hset2, hrefs,
        List.foldlM_cons, List.foldlM_nil]
      refine ⟨⟨?_, ?_⟩, ?_⟩
      · rw [← List.cons_append, hrefs]
      · rw [← List.cons_append, hdedup, List.map_append]
        rfl
      · rw [← List.cons_append, hdedup, store_enum_append]

/-- Folding the row step over rows sharing the parent key `up` appends the
consumed child keys to the expected state. -/
theorem c6_fold (up : Scalar) : ∀ (cs p : List Scalar),
    (c6rows up cs).foldlM (rowStep userM c6models c6jbd) (c6expected up p) =
      .ok (c6expected up (p ++ cs))
  | [], p => by
    rw [List.append_nil]
    rfl
  | c :: cs, p => by
    show ((c6row up c) :: c6rows up cs).foldlM (rowStep userM c6models c6jbd)
        (c6expected up p) = .ok (c6expected up (p ++ c :: cs))
    rw [List.foldlM_cons, c6_rowStep up c p]
    show (c6rows up cs).foldlM (rowStep userM c6models c6jbd)
        (c6expected up (p ++ [c])) = .ok (c6expected up (p ++ c :: cs))
    rw [c6_fold up cs (p ++ [c]), List.append_assoc]
    rfl

/-- Hydration of rows sharing one parent key lands exactly on the expected
state. -/
theorem c6_hydrate_eq (up : Scalar) (cpks : List Scalar) :
    hydrate up cpks = .ok (c6expected up cpks) := by
  have h := c6_fold up cpks []
  rw [List.nil_append] at h
  exact h

/-- C6 (amended): for rows that all share one parent primary key, the
hydrator emits exactly one parent instance, and the identity map yields one
instance per distinct primary key per entity; but the parent collection
receives one entry per ROW in arrival order — the identity-mapped reference
of each row's child key — so its length equals the number of rows, not the
number of distinct child keys. Distinct child keys get distinct instances,
and equal child keys share one instance. -/
theorem c6_amended_hydration (up : Scalar) (cpks : List Scalar) :
    hydrate up cpks = .ok (c6expected up cpks) ∧
    (c6expected up cpks).result.length = min cpks.length 1 ∧
    ordersOf (c6expected up cpks) = cpks.map (refOf cpks) ∧
    (ordersOf (c6expected up cpks)).length = cpks.length ∧
    (c6expected up cpks).heap.length = min cpks.length 1 + (dedupFirst cpks).length ∧
    ∀ c1 c2, c1 ∈ cpks → c2 ∈ cpks →
      (refOf cpks c1 = refOf cpks c2 ↔ c1 = c2) := by
  have horders : ordersOf (c6expected up cpks) = cpks.map (refOf cpks) := by
    cases cpks with
    | nil => rfl
    | cons q qs => simp [ordersOf, c6expected, c6refs]
  refine ⟨c6_hydrate_eq up cpks, ?_, horders, ?_, ?_, ?_⟩
  · cases cpks with
    | nil => rfl
    | cons q qs =>
      simp only [c6expected, List.length_cons, List.length_nil]
      omega
  · rw [horders, List.length_map]
  · cases cpks with
    | nil => rfl
    | cons q qs =>
      simp only [c6expected, List.length_cons, List.length_map]
      omega
  · intro c1 c2 h1 h2
    rw [refOf, refOf]
    constructor
    · intro h
      have h3 : (dedupFirst cpks).indexOf c1 = (dedupFirst cpks).indexOf c2 := by
        omega
      exact (List.indexOf_inj ((mem_dedupFirst cpks c1).mpr h1)
        ((mem_dedupFirst cpks c2).mpr h2)).mp h3
    · intro h
      rw [h]

/-- C6 counterexample: three rows sharing one parent id with two distinct
child ids hydrate to an orders collection of 3 entries (one per row, with
one parent instance), refuting the claimed collection of exactly 2 entries. -/
theorem c6_counterexample :
    (hydrate (.int 7) [.int 1, .int 1, .int 2]).map
        (fun st => ((ordersOf st).length, st.result.length)) = .ok (3, 1) ∧
    (hydrate (.int 7) [.int 1, .int 1, .int 2]).map
        (fun st => (ordersOf st).length) ≠ .ok 2 := by
  refine ⟨rfl, fun h => ?_⟩
  have h3 : (hydrate (Scalar.int 7) [.int 1, .int 1, .int 2]).map
      (fun st => (ordersOf st).length) = .ok 3 := rfl
  rw [h3] at h
  simp at h

/-- C6 witness: the amended hydration theorem at parent key 7 and child
keys 1, 1, 2, with its membership hypotheses discharged at keys 1 and 2. -/
theorem c6_witness :
    hydrate (.int 7) [.int 1, .int 1, .int 2] =
      .ok (c6expected (.int 7) [.int 1, .int 1, .int 2]) ∧
    (refOf [.int 1, .int 1, .int 2] (.int 1) = refOf [.int 1, .int 1, .int 2] (.int 2) ↔
      Scalar.int 1 = Scalar.int 2) :=
  ⟨(c6_amended_hydration (.int 7) [.int 1, .int 1, .int 2]).1,
   (c6_amended_hydration (.int 7) [.int 1, .int 1, .int 2]).2.2.2.2.2 (.int 1) (.int 2)
     (by decide) (by decide)⟩

end Hique
